import Mathlib

/-!
Verification of the normalization layer and request handlers of the
document-extractor service (`src/app.py`).

The development shallowly embeds the Python source:
* `format_indian_currency` (app.py lines 60-80),
* `extract_cheque_number_from_micr` (app.py lines 42-58) together with an
  executable matcher for the two regular expressions it uses,
* the three Gemini-response normalizers (cheque / passbook / GST) acting on
  an explicit JSON value type, the fenced-block unwrapping step and a model
  of `json.loads`,
* the request handlers (`process_cheque` / `process_gst` /
  `process_passbook`), with external effects (file save, PDF rasterization,
  AI extraction, file removal) modelled as oracles supplied in an
  environment record.

Machine strings are `String`/`List Char`; Python integers are `Nat`/`Int`.
-/

namespace DocExtractor

/-! ### Character classes

`isPyWs` models Python's `str.strip` whitespace set and the regex class
`\s` (ASCII part); `isDigitCh` models `\d` (ASCII digits; the source only
ever feeds ASCII digit data); `isWordCh` models `\w`; `isGlyph` recognizes
the two MICR boundary glyphs of the regex `[⑈⑆]` in
`extract_cheque_number_from_micr`. -/

def isPyWs (c : Char) : Bool :=
  c == ' ' || c == '\t' || c == '\n' || c == '\r' || c == '\x0b' || c == '\x0c'

def isDigitCh (c : Char) : Bool :=
  c.isDigit

def isWordCh (c : Char) : Bool :=
  c.isAlphanum || c == '_'

def isGlyph (c : Char) : Bool :=
  c == '⑈' || c == '⑆'

/-! ### Python `str.strip` -/

/-- Strip leading whitespace: models the left half of Python `str.strip()`. -/
def stripFront (l : List Char) : List Char :=
  l.dropWhile isPyWs

/-- Strip trailing whitespace: models the right half of Python `str.strip()`. -/
def stripEnd (l : List Char) : List Char :=
  (l.reverse.dropWhile isPyWs).reverse

/-- Python `str.strip()` on the character list. -/
def pyStripL (l : List Char) : List Char :=
  stripEnd (stripFront l)

/-- Python `str.strip()` on strings. -/
def pyStripS (s : String) : String :=
  String.mk (pyStripL s.data)

/-! ### Currency formatter (`format_indian_currency`, app.py 60-80) -/

/-- Models Python `int(digits)` on a nonempty all-digit string. -/
def digitsToNat (l : List Char) : Nat :=
  l.foldl (fun n c => 10 * n + (c.toNat - 48)) 0

/-- The comma-insertion loop of `format_indian_currency`
(`for i in range(len(remaining) - 1, -1, -1): ...`): the first argument is
`remaining`, the second the loop counter (the next iteration uses index
`i - 1`), the third the `formatted` accumulator. -/
def currencyLoop (r : List Char) : Nat → List Char → List Char
  | 0, acc => acc
  | i + 1, acc =>
      currencyLoop r i
        (if 0 < i ∧ (r.length - i) % 2 = 0 then ',' :: r.getD i ' ' :: acc
         else r.getD i ' ' :: acc)

/-- `format_indian_currency` (app.py 60-80): strip non-digits, parse as an
integer, regroup with the Indian convention, prepend the rupee sign and a
space and append slash-dash. -/
def format_indian_currency (amount_str : String) : String :=
  if amount_str = "" then ""
  else
    let digits := amount_str.data.filter isDigitCh
    if digits = [] then ""
    else
      let s := (Nat.repr (digitsToNat digits)).data
      let s2 :=
        if s.length > 3 then
          currencyLoop (s.take (s.length - 3)) (s.take (s.length - 3)).length []
            ++ ',' :: s.drop (s.length - 3)
        else s
      String.mk ("₹ ".data ++ s2 ++ "/-".data)

/-- Specification-side grouping of the digits BEFORE the final group of
three, as the spec words it: working right-to-left, the digits are grouped
in pairs, each pair separated by a comma.  The input is the reversed digit
list (right-to-left order); the output is also in right-to-left order. -/
def pairsFromRight : List Char → List Char
  | [] => []
  | [a] => [a]
  | [a, b] => [a, b]
  | a :: b :: c :: rest => a :: b :: ',' :: pairsFromRight (c :: rest)

/-- Specification-side Indian digit grouping of a decimal digit string: the
last 3 digits form one group; the digits before them are grouped in pairs
from the right; groups are separated by commas. -/
def indianGrouping (s : List Char) : List Char :=
  if s.length ≤ 3 then s
  else
    (pairsFromRight (s.take (s.length - 3)).reverse).reverse
      ++ ',' :: s.drop (s.length - 3)

/-! ### MICR parser (`extract_cheque_number_from_micr`, app.py 42-58)

The function uses two regular expressions:
* a bounded pattern: a boundary glyph, optional whitespace, one or more
  digits, optional whitespace, a boundary glyph;
* a fallback pattern: a standalone run of exactly six digits delimited by
  word boundaries.

Because the character classes "glyph", `\s` and `\d` are pairwise
disjoint, the regex engine's leftmost match of the bounded pattern is
computed exactly by the maximal-munch scan below (no backtracking can
succeed where the greedy scan fails), and similarly for the fallback:
the embeddings are executable matchers and the theorems relate them to
declarative decompositions of the input. -/

/-- Attempt to match the bounded pattern anchored at the head of `l`:
glyph, then maximal whitespace, then maximal nonempty digits, then
maximal whitespace, then glyph.  Returns the digit group. -/
def matchBoundedAt (l : List Char) : Option (List Char) :=
  match l with
  | [] => none
  | c :: rest =>
      if isGlyph c then
        if (rest.dropWhile isPyWs).takeWhile isDigitCh = [] then none
        else
          match ((rest.dropWhile isPyWs).dropWhile isDigitCh).dropWhile isPyWs with
          | [] => none
          | d :: _ =>
              if isGlyph d then some ((rest.dropWhile isPyWs).takeWhile isDigitCh)
              else none
      else none

/-- Leftmost match of the bounded pattern: models taking the first element
of `re.findall` for the bounded pattern. -/
def findBounded : List Char → Option (List Char)
  | [] => none
  | c :: rest =>
      match matchBoundedAt (c :: rest) with
      | some ds => some ds
      | none => findBounded rest

/-- Attempt to match the standalone 6-digit pattern anchored at the head
of `l` (the word boundary BEFORE the digits is checked by the caller):
exactly six digits followed by the end of the input or a non-word
character. -/
def sixAt (l : List Char) : Option (List Char) :=
  if (l.take 6).length = 6 ∧ (l.take 6).all isDigitCh = true then
    match (l.drop 6).head? with
    | none => some (l.take 6)
    | some c => if isWordCh c = true then none else some (l.take 6)
  else none

/-- Whether the character preceding the current scan position permits a
word boundary (`none` is the start of the string). -/
def prevOk (prev : Option Char) : Bool :=
  match prev with
  | none => true
  | some p => !isWordCh p

/-- Leftmost match of the standalone 6-digit pattern, scanning left to
right while remembering the previous character: models taking the first
element of `re.findall` for the fallback pattern. -/
def findSixFrom : Option Char → List Char → Option (List Char)
  | _, [] => none
  | prev, c :: rest =>
      match (if prevOk prev then sixAt (c :: rest) else none) with
      | some ds => some ds
      | none => findSixFrom (some c) rest

/-- `extract_cheque_number_from_micr` (app.py 42-58): first segment
enclosed in MICR boundary glyphs, else first standalone 6-digit token,
else the empty string.  The leading emptiness test models Python's
`if not micr_code: return ""`. -/
def extract_cheque_number_from_micr (micr : String) : String :=
  if micr = "" then ""
  else
    match findBounded micr.data with
    | some ds => String.mk ds
    | none =>
        match findSixFrom none micr.data with
        | some ds => String.mk ds
        | none => ""

/-! Declarative (specification-side) descriptions of the two patterns. -/

/-- A bounded match anchored at the head of `l`: `l` decomposes as a
glyph, whitespace, a nonempty digit group `ds`, whitespace, a glyph, and
arbitrary remaining text. -/
def BoundedAt (l ds : List Char) : Prop :=
  ∃ g1 ws1 ws2 g2 tail,
    l = g1 :: (ws1 ++ (ds ++ (ws2 ++ g2 :: tail))) ∧
    isGlyph g1 = true ∧ isGlyph g2 = true ∧
    ws1.all isPyWs = true ∧ ws2.all isPyWs = true ∧
    ds ≠ [] ∧ ds.all isDigitCh = true

/-- A bounded match of the MICR pattern at position `i` of `m`. -/
def BoundedMatch (m : List Char) (i : Nat) (ds : List Char) : Prop :=
  BoundedAt (m.drop i) ds

/-- A standalone 6-digit match at the current scan position, with `prev`
the character immediately before the position (`none` at the start):
`prev` is not a word character, the next six characters are digits, and
the character after them (if any) is not a word character. -/
def SixHere (prev : Option Char) (l : List Char) : Prop :=
  prevOk prev = true ∧
  (l.take 6).length = 6 ∧ (l.take 6).all isDigitCh = true ∧
  (∀ c, (l.drop 6).head? = some c → isWordCh c = false)

/-- A standalone 6-digit match at position `i` of `m`, threading the
previous character through the scan. -/
def SixMatchAux : Option Char → List Char → Nat → Prop
  | prev, l, 0 => SixHere prev l
  | _, [], _ + 1 => False
  | _, c :: rest, i + 1 => SixMatchAux (some c) rest i

/-- A standalone 6-digit match of the fallback pattern at position `i`. -/
def SixMatch (m : List Char) (i : Nat) : Prop :=
  SixMatchAux none m i

/-! ### JSON values

Values produced by `json.loads`.  JSON numbers are modelled as integers
(the source never relies on fractional values; a payload with a
fractional or exponent part is outside the model and rejected by the
embedded parser).  Objects keep their key/value pairs in source order;
lookups take the LAST binding of a key, matching the way `json.loads`
builds a `dict` (later duplicate keys win). -/

inductive Json where
  | null : Json
  | bool (b : Bool) : Json
  | num (n : Int) : Json
  | str (s : String) : Json
  | arr (xs : List Json) : Json
  | obj (kvs : List (String × Json)) : Json
  deriving Repr

/-- Lookup of the last binding of `k`, the value `dict(pairs)[k]` would
hold after `json.loads` collapses duplicates. -/
def jGet (kvs : List (String × Json)) (k : String) : Option Json :=
  match kvs with
  | [] => none
  | (k', v) :: rest =>
      match jGet rest k with
      | some v' => some v'
      | none => if k' = k then some v else none

/-- Python truthiness of a parsed JSON value. -/
def pyTruthy : Json → Bool
  | Json.null => false
  | Json.bool b => b
  | Json.num n => n != 0
  | Json.str s => s != ""
  | Json.arr xs => !xs.isEmpty
  | Json.obj kvs => !kvs.isEmpty

/-- Whether a parsed JSON value is a Python `str`. -/
def jIsStr : Json → Bool
  | Json.str _ => true
  | _ => false

/-- The underlying string of a `Json.str` (unused default otherwise). -/
def jStrVal : Json → String
  | Json.str s => s
  | _ => ""

/-- Hexadecimal digit for `\xhh` escapes in Python `repr`. -/
def hexDigit (n : Nat) : Char :=
  if n < 10 then Char.ofNat (48 + n) else Char.ofNat (87 + n)

/-- Python `repr` escaping of one character inside a single-quoted string
literal (printable characters other than the quote and backslash pass
through; `repr` of non-ASCII printable characters is simplified to
pass-through). -/
def pyEscapeChar (c : Char) : List Char :=
  if c = '\\' then ['\\', '\\']
  else if c = Char.ofNat 39 then ['\\', Char.ofNat 39]
  else if c = '\n' then ['\\', 'n']
  else if c = '\r' then ['\\', 'r']
  else if c = '\t' then ['\\', 't']
  else if c.toNat < 32 ∨ c.toNat = 127 then
    ['\\', 'x', hexDigit (c.toNat / 16 % 16), hexDigit (c.toNat % 16)]
  else [c]

/-- Python `repr` of a string, simplified to always use single quotes. -/
def pyQuote (s : String) : String :=
  String.mk (Char.ofNat 39 :: s.data.flatMap pyEscapeChar ++ [Char.ofNat 39])

mutual

/-- Python `str()` of a parsed JSON value. -/
def pyStr : Json → String
  | Json.null => "None"
  | Json.bool true => "True"
  | Json.bool false => "False"
  | Json.num n => toString n
  | Json.str s => s
  | Json.arr xs => "[" ++ String.intercalate ", " (pyReprList xs) ++ "]"
  | Json.obj kvs => "\x7b" ++ String.intercalate ", " (pyReprPairs kvs) ++ "\x7d"

/-- Python `repr` of a parsed JSON value (used for container elements). -/
def pyRepr : Json → String
  | Json.null => "None"
  | Json.bool true => "True"
  | Json.bool false => "False"
  | Json.num n => toString n
  | Json.str s => pyQuote s
  | Json.arr xs => "[" ++ String.intercalate ", " (pyReprList xs) ++ "]"
  | Json.obj kvs => "\x7b" ++ String.intercalate ", " (pyReprPairs kvs) ++ "\x7d"

def pyReprList : List Json → List String
  | [] => []
  | x :: xs => pyRepr x :: pyReprList xs

def pyReprPairs : List (String × Json) → List String
  | [] => []
  | (k, v) :: rest => (pyQuote k ++ ": " ++ pyRepr v) :: pyReprPairs rest

end

/-! ### The three normalizers (app.py 131-177, 240-282, 344-403)

Each normalizer is modelled from the point where `json.loads` has
produced a value: the prompt construction and the Gemini call are
oracles, and their textual response is handled by `unwrapFence` and the
`json_loads` model below.  A Python exception inside the `try:` block
(attribute error on a non-dict, type error from `re.findall` on a
non-string, type error from `str.join` on a non-string element) makes the
normalizer return `None`; the models return `none` at exactly those
points.  The produced record is the Python dict, in insertion order. -/

/-- One record produced by a normalizer: a Python dict in insertion
order. -/
abbrev Record := List (String × Json)

/-- `extract_cheque_number_from_micr` applied to a parsed JSON value, as
the cheque normalizer does on `extracted.get('micr_code', '')`: a falsy
value returns the empty string before any regex runs; a truthy non-string
raises `TypeError` inside `re.findall` (modelled as `none`). -/
def micrExtract (v : Json) : Option String :=
  if pyTruthy v = false then some ""
  else
    match v with
    | Json.str s => some (extract_cheque_number_from_micr s)
    | _ => none

/-- `format_indian_currency(amount_num) if amount_num else ''` applied to
the parsed JSON value of `amount_numbers` (the formatter begins with
`str(amount_str)`). -/
def formatAmount (v : Json) : String :=
  if pyTruthy v then format_indian_currency (pyStr v) else ""

/-- `extracted.get(k, '')`. -/
def getStrD (kvs : List (String × Json)) (k : String) : Json :=
  (jGet kvs k).getD (Json.str "")

/-- The cheque normalizer from the parsed response value (app.py
140-165); `now` models `datetime.now().isoformat()`. -/
def chequeFromJson (j : Json) (now : String) : Option Record :=
  match j with
  | Json.obj kvs =>
      let micr := getStrD kvs "micr_code"
      match micrExtract micr with
      | none => none
      | some chequeNum =>
          let amountNum := getStrD kvs "amount_numbers"
          some
            [("document_type", Json.str "cheque"),
             ("bank_name", getStrD kvs "bank_name"),
             ("account_holder_name", getStrD kvs "account_holder_name"),
             ("payee_name", getStrD kvs "payee_name"),
             ("amount_words", getStrD kvs "amount_words"),
             ("amount_numbers", amountNum),
             ("amount_formatted", Json.str (formatAmount amountNum)),
             ("date", getStrD kvs "date"),
             ("account_number", getStrD kvs "account_number"),
             ("ifsc_code", getStrD kvs "ifsc_code"),
             ("micr_code", micr),
             ("cheque_number", Json.str chequeNum),
             ("prefix_number", getStrD kvs "prefix_number"),
             ("branch_name", getStrD kvs "branch_name"),
             ("branch_code", getStrD kvs "branch_code"),
             ("extracted_at", Json.str now)]
  | _ => none

/-- The passbook normalizer from the parsed response value (app.py
249-271). -/
def passbookFromJson (j : Json) (now : String) : Option Record :=
  match j with
  | Json.obj kvs =>
      some
        [("document_type", Json.str "passbook"),
         ("cif_number", getStrD kvs "cif_number"),
         ("account_number", getStrD kvs "account_number"),
         ("customer_name", getStrD kvs "customer_name"),
         ("father_husband_name", getStrD kvs "father_husband_name"),
         ("address", getStrD kvs "address"),
         ("phone", getStrD kvs "phone"),
         ("email", getStrD kvs "email"),
         ("date_of_birth", getStrD kvs "date_of_birth"),
         ("minor_status", getStrD kvs "minor_status"),
         ("nominee_reg_number", getStrD kvs "nominee_reg_number"),
         ("branch_name", getStrD kvs "branch_name"),
         ("branch_code", getStrD kvs "branch_code"),
         ("ifsc_code", getStrD kvs "ifsc_code"),
         ("micr_code", getStrD kvs "micr_code"),
         ("account_type", getStrD kvs "account_type"),
         ("date_of_issue", getStrD kvs "date_of_issue"),
         ("date_of_activation", getStrD kvs "date_of_activation"),
         ("extracted_at", Json.str now)]
  | _ => none

/-- Python truthiness of `extracted.get(k)` (no default). -/
def optTruthy (o : Option Json) : Bool :=
  match o with
  | none => false
  | some v => pyTruthy v

/-- `if extracted.get(k): address_parts.append(f"Label: " + value)`: the
appended element is a Python string built by an f-string. -/
def labChunk (lab : String) (o : Option Json) : List Json :=
  if optTruthy o then [Json.str (lab ++ pyStr (o.getD Json.null))] else []

/-- `if extracted.get(k): address_parts.append(extracted[k])`: the
appended element is the raw parsed value. -/
def rawChunk (o : Option Json) : List Json :=
  if optTruthy o then [o.getD Json.null] else []

/-- The `address_parts` list of the GST normalizer (app.py 355-365), in
source order. -/
def gstParts (kvs : List (String × Json)) : List Json :=
  labChunk "Floor: " (jGet kvs "floor_number")
    ++ labChunk "Building: " (jGet kvs "building_number")
    ++ rawChunk (jGet kvs "premises_name")
    ++ rawChunk (jGet kvs "road_street")
    ++ rawChunk (jGet kvs "locality")

/-- `', '.join(filter(None, address_parts))` (app.py 367): `filter(None,·)`
keeps truthy elements; `join` raises `TypeError` (modelled as `none`)
when some kept element is not a string. -/
def gstAddress (kvs : List (String × Json)) : Option String :=
  let kept := (gstParts kvs).filter pyTruthy
  if kept.all jIsStr then some (String.intercalate ", " (kept.map jStrVal))
  else none

/-- The GST normalizer from the parsed response value (app.py 353-393). -/
def gstFromJson (j : Json) (now : String) : Option Record :=
  match j with
  | Json.obj kvs =>
      match gstAddress kvs with
      | none => none
      | some fullAddress =>
          some
            [("document_type", Json.str "gst_certificate"),
             ("registration_number", getStrD kvs "registration_number"),
             ("legal_name", getStrD kvs "legal_name"),
             ("trade_name", getStrD kvs "trade_name"),
             ("constitution", getStrD kvs "constitution"),
             ("floor_number", getStrD kvs "floor_number"),
             ("building_number", getStrD kvs "building_number"),
             ("premises_name", getStrD kvs "premises_name"),
             ("road_street", getStrD kvs "road_street"),
             ("locality", getStrD kvs "locality"),
             ("full_address", Json.str fullAddress),
             ("city", getStrD kvs "city"),
             ("district", getStrD kvs "district"),
             ("state", getStrD kvs "state"),
             ("pin_code", getStrD kvs "pin_code"),
             ("validity_from", getStrD kvs "validity_from"),
             ("validity_to", getStrD kvs "validity_to"),
             ("registration_type", getStrD kvs "registration_type"),
             ("approving_officer", getStrD kvs "approving_officer"),
             ("designation", getStrD kvs "designation"),
             ("office", getStrD kvs "office"),
             ("issue_date", getStrD kvs "issue_date"),
             ("extracted_at", Json.str now)]
  | _ => none

/-- The upstream keys read by the cheque normalizer. -/
def chequeKeys : List String :=
  ["bank_name", "account_holder_name", "payee_name", "amount_words",
   "amount_numbers", "date", "account_number", "ifsc_code", "micr_code",
   "prefix_number", "branch_name", "branch_code"]

/-- The upstream keys read with a default by the passbook normalizer. -/
def passbookKeys : List String :=
  ["cif_number", "account_number", "customer_name", "father_husband_name",
   "address", "phone", "email", "date_of_birth", "minor_status",
   "nominee_reg_number", "branch_name", "branch_code", "ifsc_code",
   "micr_code", "account_type", "date_of_issue", "date_of_activation"]

/-- The upstream keys read with a default by the GST normalizer. -/
def gstKeys : List String :=
  ["registration_number", "legal_name", "trade_name", "constitution",
   "floor_number", "building_number", "premises_name", "road_street",
   "locality", "city", "district", "state", "pin_code", "validity_from",
   "validity_to", "registration_type", "approving_officer", "designation",
   "office", "issue_date"]

/-- Claim-side description of the GST address (C5 as stated): the
non-empty string values of the five address sub-fields, in order, joined
with a comma and a space. -/
def claimGstAddress (kvs : List (String × Json)) : String :=
  String.intercalate ", "
    ((["floor_number", "building_number", "premises_name", "road_street",
       "locality"].map fun k =>
        match jGet kvs k with
        | some (Json.str s) => s
        | _ => "").filter fun s => s ≠ "")

/-- Amended description of the GST address (what the code computes when it
produces a record): the floor and building contributions carry `Floor: `
and `Building: ` labels; the premises name, road/street and locality
values are joined as rendered; truthy sub-fields only. -/
def amendedGstAddress (kvs : List (String × Json)) : String :=
  String.intercalate ", "
    ((if optTruthy (jGet kvs "floor_number") = true then
        ["Floor: " ++ pyStr ((jGet kvs "floor_number").getD Json.null)] else [])
     ++ ((if optTruthy (jGet kvs "building_number") = true then
        ["Building: " ++ pyStr ((jGet kvs "building_number").getD Json.null)] else [])
     ++ ((if optTruthy (jGet kvs "premises_name") = true then
        [pyStr ((jGet kvs "premises_name").getD Json.null)] else [])
     ++ ((if optTruthy (jGet kvs "road_street") = true then
        [pyStr ((jGet kvs "road_street").getD Json.null)] else [])
     ++ (if optTruthy (jGet kvs "locality") = true then
        [pyStr ((jGet kvs "locality").getD Json.null)] else [])))))

/-! ### Fenced-block unwrapping (app.py 133-138) and `json.loads`

`json_text.split(sep)[1]` is the text between the first and second
occurrence of `sep` (to the end if there is no second occurrence), and
`.split(sep)[0]` is the text before the first occurrence; both are used
only after a `startswith` check guarantees at least one occurrence. -/

/-- The text before the first occurrence of `pat` (everything when `pat`
does not occur): `s.split(pat)[0]` for nonempty `pat`. -/
def takeUntilSub (pat : List Char) : List Char → List Char
  | [] => []
  | c :: rest =>
      if pat.isPrefixOf (c :: rest) then []
      else c :: takeUntilSub pat rest

/-- The text after the first occurrence of `pat` (empty when `pat` does
not occur; only used when an occurrence is guaranteed). -/
def afterSub (pat : List Char) : List Char → List Char
  | [] => []
  | c :: rest =>
      if pat.isPrefixOf (c :: rest) then (c :: rest).drop pat.length
      else afterSub pat rest

/-- `s.split(pat)[1]` for nonempty `pat` with at least one occurrence. -/
def betweenSub (pat l : List Char) : List Char :=
  takeUntilSub pat (afterSub pat l)

/-- Whether three consecutive backticks occur in `l`. -/
def hasTripleTick : List Char → Bool
  | a :: b :: c :: rest =>
      (a == '`' && b == '`' && c == '`') || hasTripleTick (b :: c :: rest)
  | _ => false

/-- The plain fence marker, the characters of the separator string of
`json_text.split` in the `elif` branch (three backticks). -/
def tksL : List Char :=
  ['`', '`', '`']

/-- The tagged fence marker, the characters of the separator string of
`json_text.split` in the `if` branch (three backticks then `json`). -/
def jsTagL : List Char :=
  ['`', '`', '`', 'j', 's', 'o', 'n']

/-- The fence-unwrapping step of each normalizer (app.py 133-138):
`strip`, then if the text starts with a fence opener (with or without the
`json` language tag) cut the payload out between the first two fences and
`strip` it again. -/
def unwrapFenceL (t : List Char) : List Char :=
  let s := pyStripL t
  if jsTagL.isPrefixOf s then
    pyStripL (takeUntilSub tksL (betweenSub jsTagL s))
  else if tksL.isPrefixOf s then
    pyStripL (takeUntilSub tksL (afterSub tksL s))
  else s

/-- String form of `unwrapFenceL`. -/
def unwrapFence (t : String) : String :=
  String.mk (unwrapFenceL t.data)

/-! A recursive-descent model of `json.loads` (strict mode): whitespace is
space, tab, newline, carriage return; strings use the standard escapes
(including `\uXXXX`); numbers are integers (a fractional or exponent part
is out of the model and rejected); literals are `true`, `false`, `null`;
trailing non-whitespace text is an error.  Recursion is fueled; the fuel
is taken from the input length, which bounds the recursion depth. -/

def isJsonWs (c : Char) : Bool :=
  c == ' ' || c == '\t' || c == '\n' || c == '\r'

/-- Whether a character is a hexadecimal digit. -/
def isHexCh (c : Char) : Bool :=
  c.isDigit || ('a' ≤ c && c ≤ 'f') || ('A' ≤ c && c ≤ 'F')

/-- Parse the four-hex-digit code of a `\uXXXX` escape. -/
def parseHex4 (l : List Char) : Option (Nat × List Char) :=
  match l with
  | a :: b :: c :: d :: rest =>
      if isHexCh a && isHexCh b && isHexCh c && isHexCh d then
        let hv := fun (x : Char) =>
          if x.isDigit then x.toNat - 48
          else if x.toNat ≥ 97 then x.toNat - 87 else x.toNat - 55
        some ((((hv a * 16 + hv b) * 16 + hv c) * 16 + hv d), rest)
      else none
  | _ => none

/-- Parse the body of a JSON string after the opening quote, up to and
including the closing quote (a `\uXXXX` escape with an invalid scalar
value is simplified to the null character by `Char.ofNat`). -/
def parseJString (fuel : Nat) (l : List Char) : Option (List Char × List Char) :=
  match fuel with
  | 0 => none
  | fuel + 1 =>
      match l with
      | [] => none
      | c :: rest =>
          let cont := fun (ch : Char) (r : List Char) =>
            match parseJString fuel r with
            | some (s, r2) => some (ch :: s, r2)
            | none => none
          if c = '"' then some ([], rest)
          else if c = '\\' then
            match rest with
            | [] => none
            | e :: rest2 =>
                if e = '"' then cont '"' rest2
                else if e = '\\' then cont '\\' rest2
                else if e = '/' then cont '/' rest2
                else if e = 'b' then cont '\x08' rest2
                else if e = 'f' then cont '\x0c' rest2
                else if e = 'n' then cont '\n' rest2
                else if e = 'r' then cont '\r' rest2
                else if e = 't' then cont '\t' rest2
                else if e = 'u' then
                  match parseHex4 rest2 with
                  | some (n, rest3) => cont (Char.ofNat n) rest3
                  | none => none
                else none
          else if c.toNat < 32 then none
          else cont c rest

/-- Parse a JSON integer: optional minus sign, then `0` alone or a
nonzero digit followed by digits.  A following `.`, `e` or `E`
(fractional or exponent part) is out of the model and rejected. -/
def parseJNumber (l : List Char) : Option (Int × List Char) :=
  let core := fun (m : List Char) =>
    match m with
    | [] => none
    | c :: _ =>
        if ¬ c.isDigit then none
        else
          let ds := m.takeWhile isDigitCh
          let rest := m.dropWhile isDigitCh
          if c = '0' ∧ ds.length ≠ 1 then none
          else
            match rest with
            | [] => some (digitsToNat ds, rest)
            | d :: _ =>
                if d = '.' ∨ d = 'e' ∨ d = 'E' then none
                else some (digitsToNat ds, rest)
  match l with
  | '-' :: m =>
      match core m with
      | some (n, rest) => some (-(n : Int), rest)
      | none => none
  | m =>
      match core m with
      | some (n, rest) => some ((n : Int), rest)
      | none => none

mutual

/-- Parse one JSON value after skipping leading whitespace. -/
def parseJValue (fuel : Nat) (l : List Char) : Option (Json × List Char) :=
  match fuel with
  | 0 => none
  | fuel + 1 =>
      match l.dropWhile isJsonWs with
      | [] => none
      | c :: rest =>
          if c = '"' then
            match parseJString fuel rest with
            | some (s, r) => some (Json.str (String.mk s), r)
            | none => none
          else if c = Char.ofNat 123 then
            parseJMembers fuel rest true
          else if c = '[' then
            parseJItems fuel rest true
          else if "true".data.isPrefixOf (c :: rest) then
            some (Json.bool true, (c :: rest).drop 4)
          else if "false".data.isPrefixOf (c :: rest) then
            some (Json.bool false, (c :: rest).drop 5)
          else if "null".data.isPrefixOf (c :: rest) then
            some (Json.null, (c :: rest).drop 4)
          else
            match parseJNumber (c :: rest) with
            | some (n, r) => some (Json.num n, r)
            | none => none

/-- Parse the members of an object after the opening brace (`first` is
true before the first member). -/
def parseJMembers (fuel : Nat) (l : List Char) (first : Bool) :
    Option (Json × List Char) :=
  match fuel with
  | 0 => none
  | fuel + 1 =>
      match l.dropWhile isJsonWs with
      | [] => none
      | c :: rest =>
          if c = Char.ofNat 125 ∧ first then some (Json.obj [], rest)
          else
            match parseJPairs fuel (c :: rest) with
            | some (kvs, r) => some (Json.obj kvs, r)
            | none => none

/-- Parse a nonempty comma-separated list of `"key": value` pairs and the
closing brace. -/
def parseJPairs (fuel : Nat) (l : List Char) :
    Option (List (String × Json) × List Char) :=
  match fuel with
  | 0 => none
  | fuel + 1 =>
      match l.dropWhile isJsonWs with
      | '"' :: rest =>
          match parseJString fuel rest with
          | none => none
          | some (k, r1) =>
              match r1.dropWhile isJsonWs with
              | ':' :: r2 =>
                  match parseJValue fuel r2 with
                  | none => none
                  | some (v, r3) =>
                      match r3.dropWhile isJsonWs with
                      | ',' :: r4 =>
                          match parseJPairs fuel r4 with
                          | some (kvs, r5) =>
                              some ((String.mk k, v) :: kvs, r5)
                          | none => none
                      | d :: r4 =>
                          if d = Char.ofNat 125 then
                            some ([(String.mk k, v)], r4)
                          else none
                      | [] => none
              | _ => none
      | _ => none

/-- Parse the items of an array after the opening bracket (`first` is
true before the first item). -/
def parseJItems (fuel : Nat) (l : List Char) (first : Bool) :
    Option (Json × List Char) :=
  match fuel with
  | 0 => none
  | fuel + 1 =>
      match l.dropWhile isJsonWs with
      | [] => none
      | c :: rest =>
          if c = ']' ∧ first then some (Json.arr [], rest)
          else
            match parseJElems fuel (c :: rest) with
            | some (xs, r) => some (Json.arr xs, r)
            | none => none

/-- Parse a nonempty comma-separated list of values and the closing
bracket. -/
def parseJElems (fuel : Nat) (l : List Char) :
    Option (List Json × List Char) :=
  match fuel with
  | 0 => none
  | fuel + 1 =>
      match parseJValue fuel l with
      | none => none
      | some (v, r1) =>
          match r1.dropWhile isJsonWs with
          | ',' :: r2 =>
              match parseJElems fuel r2 with
              | some (xs, r3) => some (v :: xs, r3)
              | none => none
          | ']' :: r2 => some ([v], r2)
          | _ => none

end

/-- `json.loads`: parse one value and require only whitespace after it. -/
def json_loads (s : String) : Option Json :=
  match parseJValue (2 * s.length + 8) s.data with
  | some (v, rest) => if rest.dropWhile isJsonWs = [] then some v else none
  | none => none

/-- The response-text processing shared by the three normalizers (app.py
133-140 for the cheque variant): strip and unwrap the fenced block, then
`json.loads` (a decode error makes the normalizer return `None`), then
build the cheque record. -/
def chequeNormFromText (t : String) (now : String) : Option Record :=
  match json_loads (unwrapFence t) with
  | some j => chequeFromJson j now
  | none => none

/-! ### Request handlers (app.py 435-489, 491-545, 547-601)

The three handlers are line-for-line identical except for the document
type; they are modelled once, parameterized by the endpoint's message
strings and by the outcome of every external effect (file save, PDF
rasterization, page save, extraction, file removal).  An effect that
raises a Python exception is modelled by `some msg` in the corresponding
environment field; the surrounding `try ... except` turns any such raise
into the 500 "Server error" response.  A trace records what was created,
what remains on disk when the response is produced, and which effects
ran. -/

/-- Per-endpoint message strings (the only textual differences between
`process_cheque`, `process_gst` and `process_passbook`). -/
structure DocMsgs where
  uploadPrompt : String
  successMsg : String
  failMsg : String
  deriving Repr, DecidableEq

/-- One request together with the behavior of every external effect.
`α` is the record type returned by the normalizer. -/
structure HandlerEnv (α : Type) where
  hasFile : Bool
  filename : String
  content : List Nat
  now : String
  saveErr : Option String
  convertErr : Option String
  numPages : Nat
  pageSaveErr : Option String
  extractErr : Option String
  extractData : Option α
  removeTempErr : Option String
  removeOrigErr : Option String

/-- The JSON response envelope together with the HTTP status code. -/
structure HttpResponse (α : Type) where
  status : Nat
  success : Bool
  error : Option String
  message : String
  data : Option α
  deriving Repr, DecidableEq

/-- Observable side effects of one request. -/
structure HandlerTrace where
  origSaved : Bool
  origRemains : Bool
  tempSaved : Bool
  tempRemains : Bool
  convertCalled : Bool
  convertDpi : Option Nat
  pageIndexUsed : Option Nat
  pageFormat : Option String
  extractCalled : Bool
  deriving Repr, DecidableEq

/-- The empty trace: nothing created, nothing ran. -/
def emptyTrace : HandlerTrace :=
  ⟨false, false, false, false, false, none, none, none, false⟩

/-- `os.path.join(app.config['UPLOAD_FOLDER'], f"{ts}_{file.filename}")`
as a character list. -/
def savedPathData {α : Type} (e : HandlerEnv α) : List Char :=
  "uploads/".data ++ e.now.data ++ '_' :: e.filename.data

/-- Python `str.lower` (ASCII case folding). -/
def lowerData (l : List Char) : List Char :=
  l.map Char.toLower

/-- `path.lower().endswith('.pdf')`. -/
def endsWithPdf (l : List Char) : Bool :=
  ".pdf".data.isSuffixOf (lowerData l)

/-- A 400 response. -/
def resp400 {α : Type} (err msg : String) : HttpResponse α :=
  ⟨400, false, some err, msg, none⟩

/-- The 500 response of the outer `except Exception` handler: the error
field is the fixed text `Server error`, the message is `str(e)`. -/
def respServer {α : Type} (msg : String) : HttpResponse α :=
  ⟨500, false, some "Server error", msg, none⟩

/-- The final success / extraction-failure dispatch (`if not data: ...`). -/
def respFinish {α : Type} (m : DocMsgs) (d : Option α) : HttpResponse α :=
  match d with
  | none => ⟨500, false, some "Extraction failed", m.failMsg, none⟩
  | some r => ⟨200, true, none, m.successMsg, some r⟩

/-- One request handler (`process_cheque` at app.py 435-489; `process_gst`
and `process_passbook` are identical up to `DocMsgs`).  Control flow
follows the source line by line; a `some err` in an effect field is the
exception that the outer `except` catches. -/
def process_doc {α : Type} (m : DocMsgs) (e : HandlerEnv α) :
    HttpResponse α × HandlerTrace :=
  if e.hasFile = false then
    (resp400 "No file provided" m.uploadPrompt, emptyTrace)
  else if e.filename = "" then
    (resp400 "Empty filename" "No file selected", emptyTrace)
  else
    match e.saveErr with
    | some err => (respServer err, emptyTrace)
    | none =>
        if endsWithPdf (savedPathData e) then
          match e.convertErr with
          | some err =>
              (respServer err,
               ⟨true, true, false, false, true, some 300, none, none, false⟩)
          | none =>
              if e.numPages = 0 then
                (respServer "list index out of range",
                 ⟨true, true, false, false, true, some 300, some 0, none, false⟩)
              else
                match e.pageSaveErr with
                | some err =>
                    (respServer err,
                     ⟨true, true, false, false, true, some 300, some 0,
                      some "JPEG", false⟩)
                | none =>
                    match e.extractErr with
                    | some err =>
                        (respServer err,
                         ⟨true, true, true, true, true, some 300, some 0,
                          some "JPEG", true⟩)
                    | none =>
                        match e.removeTempErr with
                        | some err =>
                            (respServer err,
                             ⟨true, true, true, true, true, some 300, some 0,
                              some "JPEG", true⟩)
                        | none =>
                            match e.removeOrigErr with
                            | some err =>
                                (respServer err,
                                 ⟨true, true, true, false, true, some 300,
                                  some 0, some "JPEG", true⟩)
                            | none =>
                                (respFinish m e.extractData,
                                 ⟨true, false, true, false, true, some 300,
                                  some 0, some "JPEG", true⟩)
        else
          match e.extractErr with
          | some err =>
              (respServer err,
               ⟨true, true, false, false, false, none, none, none, true⟩)
          | none =>
              match e.removeOrigErr with
              | some err =>
                  (respServer err,
                   ⟨true, true, false, false, false, none, none, none, true⟩)
              | none =>
                  (respFinish m e.extractData,
                   ⟨true, false, false, false, false, none, none, none, true⟩)

/-- Case-insensitive `.pdf` extension test on the client-supplied
filename alone. -/
def endsWithPdfName (f : String) : Bool :=
  ".pdf".data.isSuffixOf (lowerData f.data)

/-! ## Theorems -/

/-! ### C1: the currency formatter -/

theorem currencyLoop_append (r : List Char) :
    ∀ (i : Nat) (x y : List Char),
      currencyLoop r i (x ++ y) = currencyLoop r i x ++ y := by
  intro i
  induction i with
  | zero => intro x y; rfl
  | succ i ih =>
      intro x y
      simp only [currencyLoop]
      split
      · rw [show ',' :: r.getD i ' ' :: (x ++ y) = (',' :: r.getD i ' ' :: x) ++ y
              from rfl, ih]
      · rw [show r.getD i ' ' :: (x ++ y) = (r.getD i ' ' :: x) ++ y from rfl, ih]

theorem currencyLoop_prefix (l : List Char) (b a : Char) :
    ∀ (i : Nat) (acc : List Char), i ≤ l.length →
      currencyLoop (l ++ [b, a]) i acc = currencyLoop l i acc := by
  intro i
  induction i with
  | zero => intro acc _; rfl
  | succ i ih =>
      intro acc h
      have hi : i < l.length := Nat.lt_of_succ_le h
      have hg : (l ++ [b, a]).getD i ' ' = l.getD i ' ' :=
        List.getD_append l [b, a] ' ' i hi
      have hlen : ((l ++ [b, a]).length - i) % 2 = (l.length - i) % 2 := by
        simp only [List.length_append, List.length_cons, List.length_nil]
        omega
      simp only [currencyLoop, hg, hlen]
      exact ih _ (Nat.le_of_lt hi)

theorem currencyLoop_snoc2 (l : List Char) (b a : Char) (hl : 0 < l.length) :
    currencyLoop (l ++ [b, a]) (l.length + 2) [] =
      currencyLoop l l.length [] ++ [',', b, a] := by
  have hlen : (l ++ [b, a]).length = l.length + 2 := by simp
  have hga : (l ++ [b, a]).getD (l.length + 1) ' ' = a := by
    rw [List.getD_append_right l [b, a] ' ' (l.length + 1) (by omega)]
    simp
  have hgb : (l ++ [b, a]).getD l.length ' ' = b := by
    rw [List.getD_append_right l [b, a] ' ' l.length (by omega)]
    simp
  have step1 : currencyLoop (l ++ [b, a]) (l.length + 2) [] =
      currencyLoop (l ++ [b, a]) (l.length + 1) [a] := by
    simp only [currencyLoop, hlen, hga]
    have h1 : l.length + 2 - (l.length + 1) = 1 := by omega
    rw [h1]
    norm_num
  have step2 : currencyLoop (l ++ [b, a]) (l.length + 1) [a] =
      currencyLoop (l ++ [b, a]) l.length [',', b, a] := by
    simp only [currencyLoop, hlen, hgb]
    have h2 : l.length + 2 - l.length = 2 := by omega
    rw [h2]
    simp [hl]
  rw [step1, step2, currencyLoop_prefix l b a l.length _ (Nat.le_refl _)]
  exact currencyLoop_append l l.length [] [',', b, a]

theorem currencyLoop_eq_pairs :
    ∀ (n : Nat) (r : List Char), r.length = n →
      currencyLoop r r.length [] = (pairsFromRight r.reverse).reverse := by
  intro n
  induction n using Nat.strong_induction_on with
  | _ n ih =>
      intro r hrn
      rcases hrev : r.reverse with _ | ⟨a, _ | ⟨b, t⟩⟩
      · have h0 : r = [] := by
          have := congrArg List.reverse hrev
          simpa using this
        subst h0
        rfl
      · have h1 : r = [a] := by
          have := congrArg List.reverse hrev
          simpa using this
        subst h1
        rfl
      · have h2 : r = t.reverse ++ [b, a] := by
          have := congrArg List.reverse hrev
          simpa using this
        rcases t with _ | ⟨c, t'⟩
        · subst h2
          rfl
        · have hl : 0 < ((c :: t').reverse : List Char).length := by simp
          have hlr : r.length = ((c :: t').reverse : List Char).length + 2 := by
            rw [h2]; simp
          have hrec := ih ((c :: t').reverse : List Char).length
            (by omega) ((c :: t').reverse) rfl
          calc currencyLoop r r.length []
              = currencyLoop ((c :: t').reverse ++ [b, a])
                  (((c :: t').reverse : List Char).length + 2) [] := by
                rw [← h2, ← hlr]
            _ = currencyLoop ((c :: t').reverse) ((c :: t').reverse : List Char).length []
                  ++ [',', b, a] := currencyLoop_snoc2 _ b a hl
            _ = (pairsFromRight ((c :: t').reverse : List Char).reverse).reverse
                  ++ [',', b, a] := by rw [hrec]
            _ = (pairsFromRight (c :: t')).reverse ++ [',', b, a] := by
                rw [List.reverse_reverse]
            _ = (pairsFromRight (a :: b :: c :: t')).reverse := by
                simp [pairsFromRight]

/-- C1: for every input string, `format_indian_currency` returns the empty
string when the input has no digit characters, and otherwise returns the
rupee sign, a space, the decimal representation of the integer formed by
the digit characters regrouped by the Indian convention (`indianGrouping`:
last three digits one group, pairs before it, comma-separated), and a
trailing slash-dash; in particular the four concrete examples of the
claim hold. -/
theorem c1_format_indian_currency_spec :
    (∀ s : String,
      format_indian_currency s =
        if s.data.filter isDigitCh = [] then ""
        else
          String.mk ("₹ ".data
            ++ indianGrouping (Nat.repr (digitsToNat (s.data.filter isDigitCh))).data
            ++ "/-".data)) ∧
    format_indian_currency "5000000" = "₹ 50,00,000/-" ∧
    format_indian_currency "100" = "₹ 100/-" ∧
    format_indian_currency "" = "" ∧
    format_indian_currency "abc" = "" := by
  refine ⟨?_, by decide, by decide, rfl, by decide⟩
  intro s
  by_cases hs : s = ""
  · subst hs
    rfl
  · rw [format_indian_currency, if_neg hs]
    by_cases hd : s.data.filter isDigitCh = []
    · simp only [hd, if_pos rfl]
      rfl
    · simp only [hd, if_neg hd, ite_false]
      have key : ∀ ds : List Char,
          (if ds.length > 3 then
            currencyLoop (ds.take (ds.length - 3)) (ds.take (ds.length - 3)).length []
              ++ ',' :: ds.drop (ds.length - 3)
          else ds) = indianGrouping ds := by
        intro ds
        rw [indianGrouping]
        by_cases h3 : ds.length ≤ 3
        · rw [if_neg (by omega), if_pos h3]
        · rw [if_pos (by omega), if_neg h3,
            currencyLoop_eq_pairs (ds.take (ds.length - 3)).length _ rfl]
      rw [key]

/-! ### C2: the MICR parser

Character-class disjointness, then soundness and completeness of the
maximal-munch matchers with respect to the declarative patterns. -/

theorem pyWs_char_cases {c : Char} (h : isPyWs c = true) :
    c = ' ' ∨ c = '\t' ∨ c = '\n' ∨ c = '\r' ∨ c = '\x0b' ∨ c = '\x0c' := by
  simp [isPyWs] at h
  tauto

theorem glyph_char_cases {c : Char} (h : isGlyph c = true) :
    c = '⑈' ∨ c = '⑆' := by
  simpa [isGlyph] using h

theorem digit_not_pyWs {c : Char} (h : isDigitCh c = true) : isPyWs c = false := by
  cases hw : isPyWs c with
  | false => rfl
  | true =>
      rcases pyWs_char_cases hw with rfl | rfl | rfl | rfl | rfl | rfl <;>
        exact absurd h (by decide)

theorem glyph_not_pyWs {c : Char} (h : isGlyph c = true) : isPyWs c = false := by
  rcases glyph_char_cases h with rfl | rfl <;> decide

theorem glyph_not_digit {c : Char} (h : isGlyph c = true) : isDigitCh c = false := by
  rcases glyph_char_cases h with rfl | rfl <;> decide

theorem pyWs_not_digit {c : Char} (h : isPyWs c = true) : isDigitCh c = false := by
  cases hd : isDigitCh c with
  | false => rfl
  | true => rw [digit_not_pyWs hd] at h; exact absurd h (by decide)

theorem takeWhile_all_append {p : Char → Bool} :
    ∀ (xs ys : List Char), xs.all p = true →
      (xs ++ ys).takeWhile p = xs ++ ys.takeWhile p := by
  intro xs
  induction xs with
  | nil => intro ys _; rfl
  | cons x xs ih =>
      intro ys h
      simp only [List.all_cons, Bool.and_eq_true] at h
      simp [List.takeWhile_cons, h.1, ih ys h.2]

theorem dropWhile_all_append {p : Char → Bool} :
    ∀ (xs ys : List Char), xs.all p = true →
      (xs ++ ys).dropWhile p = ys.dropWhile p := by
  intro xs
  induction xs with
  | nil => intro ys _; rfl
  | cons x xs ih =>
      intro ys h
      simp only [List.all_cons, Bool.and_eq_true] at h
      simp [List.dropWhile_cons, h.1, ih ys h.2]

theorem takeWhile_head_neg {p : Char → Bool} {y : Char} (t : List Char)
    (h : p y = false) : (y :: t).takeWhile p = [] := by
  simp [List.takeWhile_cons, h]

theorem dropWhile_head_neg {p : Char → Bool} {y : Char} (t : List Char)
    (h : p y = false) : (y :: t).dropWhile p = y :: t := by
  simp [List.dropWhile_cons, h]

theorem all_takeWhile_self (p : Char → Bool) :
    ∀ (l : List Char), (l.takeWhile p).all p = true := by
  intro l
  induction l with
  | nil => rfl
  | cons x xs ih =>
      by_cases h : p x = true
      · simp [List.takeWhile_cons, h, ih]
      · simp only [Bool.not_eq_true] at h
        simp [List.takeWhile_cons, h]

theorem takeWhile_cons_append_neg {p : Char → Bool} {w : Char}
    (ws' ys : List Char) (h : p w = false) :
    ((w :: ws') ++ ys).takeWhile p = [] := by
  rw [List.cons_append]
  exact takeWhile_head_neg _ h

theorem dropWhile_cons_append_neg {p : Char → Bool} {w : Char}
    (ws' ys : List Char) (h : p w = false) :
    ((w :: ws') ++ ys).dropWhile p = (w :: ws') ++ ys := by
  rw [List.cons_append]
  exact dropWhile_head_neg _ h

/-- Soundness of the anchored bounded-pattern munch. -/
theorem matchBoundedAt_sound {l ds : List Char}
    (h : matchBoundedAt l = some ds) : BoundedAt l ds := by
  rcases l with _ | ⟨c, rest⟩
  · exact absurd h (by simp [matchBoundedAt])
  · rw [matchBoundedAt] at h
    by_cases hg : isGlyph c = true
    case neg =>
      rw [if_neg hg] at h
      exact absurd h (by simp)
    rw [if_pos hg] at h
    by_cases hne : (rest.dropWhile isPyWs).takeWhile isDigitCh = []
    · rw [if_pos hne] at h
      exact absurd h (by simp)
    · rw [if_neg hne] at h
      rcases hm : ((rest.dropWhile isPyWs).dropWhile isDigitCh).dropWhile isPyWs
        with _ | ⟨d, t⟩
      · rw [hm] at h
        exact absurd h (by simp)
      · rw [hm] at h
        by_cases hgd : isGlyph d = true
        case neg => simp [hgd] at h
        simp [hgd] at h
        subst h
        refine ⟨c, rest.takeWhile isPyWs,
          ((rest.dropWhile isPyWs).dropWhile isDigitCh).takeWhile isPyWs,
          d, t, ?_, hg, hgd, all_takeWhile_self _ _, all_takeWhile_self _ _,
          hne, all_takeWhile_self _ _⟩
        have e1 : rest = rest.takeWhile isPyWs ++ rest.dropWhile isPyWs :=
          (List.takeWhile_append_dropWhile isPyWs rest).symm
        have e2 : rest.dropWhile isPyWs =
            (rest.dropWhile isPyWs).takeWhile isDigitCh
              ++ (rest.dropWhile isPyWs).dropWhile isDigitCh :=
          (List.takeWhile_append_dropWhile isDigitCh (rest.dropWhile isPyWs)).symm
        have e3 : (rest.dropWhile isPyWs).dropWhile isDigitCh =
            ((rest.dropWhile isPyWs).dropWhile isDigitCh).takeWhile isPyWs
              ++ ((rest.dropWhile isPyWs).dropWhile isDigitCh).dropWhile isPyWs :=
          (List.takeWhile_append_dropWhile isPyWs
            ((rest.dropWhile isPyWs).dropWhile isDigitCh)).symm
        have hrest : rest =
            rest.takeWhile isPyWs
              ++ ((rest.dropWhile isPyWs).takeWhile isDigitCh
                ++ (((rest.dropWhile isPyWs).dropWhile isDigitCh).takeWhile isPyWs
                  ++ d :: t)) := by
          conv_lhs => rw [e1, e2, e3, hm]
        exact congrArg (List.cons c) hrest

/-- Completeness of the anchored bounded-pattern munch. -/
theorem matchBoundedAt_complete {l ds : List Char}
    (h : BoundedAt l ds) : matchBoundedAt l = some ds := by
  rcases h with ⟨g1, ws1, ws2, g2, tail, rfl, hg1, hg2, hws1, hws2, hne, hdig⟩
  rcases ds with _ | ⟨d, ds'⟩
  · exact absurd rfl hne
  · have hd : isDigitCh d = true := (List.all_eq_true.mp hdig d (by simp))
    have h1 : (ws1 ++ ((d :: ds') ++ (ws2 ++ g2 :: tail))).dropWhile isPyWs =
        (d :: ds') ++ (ws2 ++ g2 :: tail) := by
      rw [dropWhile_all_append ws1 _ hws1]
      exact dropWhile_cons_append_neg ds' _ (digit_not_pyWs hd)
    have h2 : ((d :: ds') ++ (ws2 ++ g2 :: tail)).takeWhile isDigitCh = d :: ds' := by
      rw [takeWhile_all_append (d :: ds') _ hdig]
      rcases ws2 with _ | ⟨w, ws2'⟩
      · rw [List.nil_append,
          takeWhile_head_neg tail (glyph_not_digit hg2), List.append_nil]
      · have hw : isPyWs w = true := (List.all_eq_true.mp hws2 w (by simp))
        rw [takeWhile_cons_append_neg ws2' _ (pyWs_not_digit hw), List.append_nil]
    have h3 : ((d :: ds') ++ (ws2 ++ g2 :: tail)).dropWhile isDigitCh =
        ws2 ++ g2 :: tail := by
      rw [dropWhile_all_append (d :: ds') _ hdig]
      rcases ws2 with _ | ⟨w, ws2'⟩
      · rw [List.nil_append]
        exact dropWhile_head_neg _ (glyph_not_digit hg2)
      · exact dropWhile_cons_append_neg ws2' _
          (pyWs_not_digit (List.all_eq_true.mp hws2 w (by simp)))
    have h4 : (ws2 ++ g2 :: tail).dropWhile isPyWs = g2 :: tail := by
      rw [dropWhile_all_append ws2 _ hws2]
      exact dropWhile_head_neg _ (glyph_not_pyWs hg2)
    rw [matchBoundedAt, if_pos hg1, h1, h2, h3, h4]
    simp [hg2]

theorem not_boundedAt_nil (ds : List Char) : ¬BoundedAt [] ds := by
  rintro ⟨g1, ws1, ws2, g2, tail, h, -⟩
  exact List.noConfusion h

/-- `findBounded` returns the digits of the leftmost bounded match. -/
theorem findBounded_of_leftmost :
    ∀ (l : List Char) (i : Nat) (ds : List Char),
      BoundedAt (l.drop i) ds →
      (∀ (j : Nat) (ds' : List Char), BoundedAt (l.drop j) ds' → i ≤ j) →
      findBounded l = some ds := by
  intro l
  induction l with
  | nil =>
      intro i ds h _
      rw [List.drop_nil] at h
      exact absurd h (not_boundedAt_nil ds)
  | cons c rest ih =>
      intro i ds h hmin
      rcases i with _ | i
      · rw [List.drop_zero] at h
        rw [findBounded, matchBoundedAt_complete h]
      · have h0 : matchBoundedAt (c :: rest) = none := by
          rcases hm : matchBoundedAt (c :: rest) with _ | ds''
          · rfl
          · have := hmin 0 ds'' (by rw [List.drop_zero]; exact matchBoundedAt_sound hm)
            omega
        rw [findBounded, h0]
        exact ih i ds (by simpa using h)
          (fun j ds' hj => by
            have := hmin (j + 1) ds' (by simpa using hj)
            omega)

/-- Completeness of the anchored 6-digit match. -/
theorem sixAt_complete {prev : Option Char} {l : List Char}
    (h : SixHere prev l) : prevOk prev = true ∧ sixAt l = some (l.take 6) := by
  obtain ⟨hp, hlen, hdig, hnext⟩ := h
  refine ⟨hp, ?_⟩
  rcases hh : (l.drop 6).head? with _ | c
  · simp [sixAt, hlen, hdig, hh]
  · simp [sixAt, hlen, hdig, hh, hnext c hh]

/-- Soundness of the anchored 6-digit match. -/
theorem sixAt_sound {l ds : List Char} (h : sixAt l = some ds) :
    ds = l.take 6 ∧ (l.take 6).length = 6 ∧ (l.take 6).all isDigitCh = true ∧
    (∀ c, (l.drop 6).head? = some c → isWordCh c = false) := by
  rw [sixAt] at h
  by_cases hc : (l.take 6).length = 6 ∧ (l.take 6).all isDigitCh = true
  case neg => rw [if_neg hc] at h; exact absurd h (by simp)
  rw [if_pos hc] at h
  rcases hh : (l.drop 6).head? with _ | c
  · rw [hh] at h
    simp at h
    exact ⟨h.symm, hc.1, hc.2, fun c hc' => by simp [hh] at hc'⟩
  · rw [hh] at h
    by_cases hw : isWordCh c = true
    · simp [hw] at h
    · simp [hw] at h
      refine ⟨h.symm, hc.1, hc.2, fun c' hc' => ?_⟩
      simp [hh] at hc'
      subst hc'
      simpa using hw

theorem sixMatchAux_nil {prev : Option Char} (i : Nat) :
    ¬SixMatchAux prev [] i := by
  rcases i with _ | i
  · rintro ⟨-, hlen, -, -⟩
    simp at hlen
  · simp [SixMatchAux]

/-- `findSixFrom` returns the leftmost standalone 6-digit token. -/
theorem findSixFrom_of_leftmost :
    ∀ (l : List Char) (prev : Option Char) (i : Nat),
      SixMatchAux prev l i →
      (∀ j, j < i → ¬SixMatchAux prev l j) →
      findSixFrom prev l = some ((l.drop i).take 6) := by
  intro l
  induction l with
  | nil =>
      intro prev i h _
      exact absurd h (sixMatchAux_nil i)
  | cons c rest ih =>
      intro prev i h hmin
      rcases i with _ | i
      · obtain ⟨hp', hsix⟩ := sixAt_complete h
        rw [findSixFrom, if_pos hp', hsix]
        rfl
      · have h6 : (if prevOk prev = true then sixAt (c :: rest) else none) = none := by
          by_cases hp : prevOk prev = true
          · rw [if_pos hp]
            rcases hs : sixAt (c :: rest) with _ | ds
            · rfl
            · obtain ⟨hds, hlen, hdig, hnext⟩ := sixAt_sound hs
              exact absurd ⟨hp, hlen, hdig, hnext⟩ (hmin 0 (Nat.succ_pos i))
          · rw [if_neg hp]
        rw [findSixFrom, h6]
        exact ih (some c) i h (fun j hj => hmin (j + 1) (by omega))

/-- `findSixFrom` finds nothing when no standalone 6-digit token exists. -/
theorem findSixFrom_of_none :
    ∀ (l : List Char) (prev : Option Char),
      (∀ i, ¬SixMatchAux prev l i) → findSixFrom prev l = none := by
  intro l
  induction l with
  | nil => intro prev _; rfl
  | cons c rest ih =>
      intro prev hno
      have h6 : (if prevOk prev = true then sixAt (c :: rest) else none) = none := by
        by_cases hp : prevOk prev = true
        · rw [if_pos hp]
          rcases hs : sixAt (c :: rest) with _ | ds
          · rfl
          · obtain ⟨hds, hlen, hdig, hnext⟩ := sixAt_sound hs
            exact absurd ⟨hp, hlen, hdig, hnext⟩ (hno 0)
        · rw [if_neg hp]
      rw [findSixFrom, h6]
      exact ih (some c) (fun i => hno (i + 1))

theorem boundedAt_has_digit {l ds : List Char} (h : BoundedAt l ds) :
    ∃ c ∈ l, isDigitCh c = true := by
  obtain ⟨g1, ws1, ws2, g2, tail, rfl, -, -, -, -, hne, hdig⟩ := h
  rcases ds with _ | ⟨d, ds'⟩
  · exact absurd rfl hne
  · exact ⟨d, by simp, List.all_eq_true.mp hdig d (by simp)⟩

theorem sixMatchAux_has_digit :
    ∀ (l : List Char) (prev : Option Char) (i : Nat),
      SixMatchAux prev l i → ∃ c ∈ l, isDigitCh c = true := by
  intro l
  induction l with
  | nil => intro prev i h; exact absurd h (sixMatchAux_nil i)
  | cons c rest ih =>
      intro prev i h
      rcases i with _ | i
      · obtain ⟨-, hlen, hdig, -⟩ := h
        have hc : c ∈ (c :: rest).take 6 := List.mem_cons_self c _
        exact ⟨c, List.mem_cons_self c rest, List.all_eq_true.mp hdig c hc⟩
      · obtain ⟨d, hd, hdig⟩ := ih (some c) i h
        exact ⟨d, List.mem_cons_of_mem c hd, hdig⟩

/-- `findBounded` finds nothing when no bounded match exists. -/
theorem findBounded_of_none :
    ∀ (l : List Char),
      (∀ (i : Nat) (ds : List Char), ¬BoundedAt (l.drop i) ds) →
      findBounded l = none := by
  intro l
  induction l with
  | nil => intro _; rfl
  | cons c rest ih =>
      intro hno
      have h0 : matchBoundedAt (c :: rest) = none := by
        rcases hm : matchBoundedAt (c :: rest) with _ | ds''
        · rfl
        · exact absurd (matchBoundedAt_sound hm) (by simpa using hno 0 ds'')
      rw [findBounded, h0]
      exact ih (fun i ds hi => hno (i + 1) ds (by simpa using hi))

/-- C2: `extract_cheque_number_from_micr` returns the leftmost digit
sequence enclosed between two boundary glyphs when a bounded match
exists; otherwise the leftmost standalone 6-digit token bounded by word
boundaries, if any; otherwise the empty string — in particular it returns
the empty string on any input without digits, and the claim's concrete
examples hold. -/
theorem c2_extract_cheque_number_spec :
    (∀ (m : String) (i : Nat) (ds : List Char),
        BoundedMatch m.data i ds →
        (∀ (j : Nat) (ds' : List Char), BoundedMatch m.data j ds' → i ≤ j) →
        extract_cheque_number_from_micr m = String.mk ds) ∧
    (∀ (m : String) (i : Nat),
        (∀ (j : Nat) (ds : List Char), ¬BoundedMatch m.data j ds) →
        SixMatch m.data i → (∀ j, SixMatch m.data j → i ≤ j) →
        extract_cheque_number_from_micr m = String.mk ((m.data.drop i).take 6)) ∧
    (∀ (m : String),
        (∀ (j : Nat) (ds : List Char), ¬BoundedMatch m.data j ds) →
        (∀ j, ¬SixMatch m.data j) →
        extract_cheque_number_from_micr m = "") ∧
    (∀ (m : String), (∀ c ∈ m.data, isDigitCh c = false) →
        extract_cheque_number_from_micr m = "") ∧
    extract_cheque_number_from_micr "⑈343242⑈ 520002206⑆ 000860⑈ 24" = "343242" ∧
    extract_cheque_number_from_micr "ABC 123456 XY" = "123456" := by
  have hnil : ∀ i : Nat, (([] : List Char)).drop i = [] := fun i => List.drop_nil
  refine ⟨?_, ?_, ?_, ?_, by decide, by decide⟩
  · intro m i ds h hmin
    by_cases hm : m = ""
    · subst hm
      rw [BoundedMatch, show ("" : String).data = ([] : List Char) from rfl,
        hnil i] at h
      exact absurd h (not_boundedAt_nil ds)
    · rw [extract_cheque_number_from_micr, if_neg hm,
        findBounded_of_leftmost m.data i ds h hmin]
  · intro m i hnob h hmin
    by_cases hm : m = ""
    · subst hm
      rw [SixMatch, show ("" : String).data = ([] : List Char) from rfl] at h
      exact absurd h (sixMatchAux_nil i)
    · rw [extract_cheque_number_from_micr, if_neg hm,
        findBounded_of_none m.data hnob,
        findSixFrom_of_leftmost m.data none i h
          (fun j hj hsj => absurd (hmin j hsj) (by omega))]
  · intro m hnob hnos
    by_cases hm : m = ""
    · rw [extract_cheque_number_from_micr, if_pos hm]
    · rw [extract_cheque_number_from_micr, if_neg hm,
        findBounded_of_none m.data hnob,
        findSixFrom_of_none m.data none hnos]
  · intro m hnd
    by_cases hm : m = ""
    · rw [extract_cheque_number_from_micr, if_pos hm]
    · have hb : findBounded m.data = none :=
        findBounded_of_none m.data (fun i ds hi => by
          obtain ⟨c, hc, hdig⟩ := boundedAt_has_digit hi
          exact absurd hdig (by simp [hnd c (List.mem_of_mem_drop hc)]))
      have hs : findSixFrom none m.data = none :=
        findSixFrom_of_none m.data none (fun i hi => by
          obtain ⟨c, hc, hdig⟩ := sixMatchAux_has_digit m.data none i hi
          exact absurd hdig (by simp [hnd c hc]))
      rw [extract_cheque_number_from_micr, if_neg hm, hb, hs]

/-- Witness for C2: the first clause applied at a concrete bounded
match. -/
theorem c2_extract_cheque_number_spec_witness :
    extract_cheque_number_from_micr "⑈77⑈" = "77" := by
  have hb : BoundedMatch ("⑈77⑈" : String).data 0 ['7', '7'] :=
    ⟨'⑈', [], [], '⑈', [], by decide, by decide, by decide, by decide,
      by decide, by decide, by decide⟩
  exact c2_extract_cheque_number_spec.1 "⑈77⑈" 0 ['7', '7'] hb
    (fun j ds' _ => Nat.zero_le j)

/-! ### C3, C4, C5: the normalizers -/

theorem chequeFromJson_inv {kvs : List (String × Json)} {now : String}
    {r : Record} (h : chequeFromJson (Json.obj kvs) now = some r) :
    ∃ cn, micrExtract (getStrD kvs "micr_code") = some cn ∧
      r = [("document_type", Json.str "cheque"),
           ("bank_name", getStrD kvs "bank_name"),
           ("account_holder_name", getStrD kvs "account_holder_name"),
           ("payee_name", getStrD kvs "payee_name"),
           ("amount_words", getStrD kvs "amount_words"),
           ("amount_numbers", getStrD kvs "amount_numbers"),
           ("amount_formatted",
             Json.str (formatAmount (getStrD kvs "amount_numbers"))),
           ("date", getStrD kvs "date"),
           ("account_number", getStrD kvs "account_number"),
           ("ifsc_code", getStrD kvs "ifsc_code"),
           ("micr_code", getStrD kvs "micr_code"),
           ("cheque_number", Json.str cn),
           ("prefix_number", getStrD kvs "prefix_number"),
           ("branch_name", getStrD kvs "branch_name"),
           ("branch_code", getStrD kvs "branch_code"),
           ("extracted_at", Json.str now)] := by
  simp only [chequeFromJson] at h
  rcases hm : micrExtract (getStrD kvs "micr_code") with _ | cn
  · rw [hm] at h
    exact absurd h (by simp)
  · rw [hm] at h
    simp only [Option.some.injEq] at h
    exact ⟨cn, rfl, h.symm⟩

theorem passbookFromJson_inv {kvs : List (String × Json)} {now : String}
    {r : Record} (h : passbookFromJson (Json.obj kvs) now = some r) :
    r = [("document_type", Json.str "passbook"),
         ("cif_number", getStrD kvs "cif_number"),
         ("account_number", getStrD kvs "account_number"),
         ("customer_name", getStrD kvs "customer_name"),
         ("father_husband_name", getStrD kvs "father_husband_name"),
         ("address", getStrD kvs "address"),
         ("phone", getStrD kvs "phone"),
         ("email", getStrD kvs "email"),
         ("date_of_birth", getStrD kvs "date_of_birth"),
         ("minor_status", getStrD kvs "minor_status"),
         ("nominee_reg_number", getStrD kvs "nominee_reg_number"),
         ("branch_name", getStrD kvs "branch_name"),
         ("branch_code", getStrD kvs "branch_code"),
         ("ifsc_code", getStrD kvs "ifsc_code"),
         ("micr_code", getStrD kvs "micr_code"),
         ("account_type", getStrD kvs "account_type"),
         ("date_of_issue", getStrD kvs "date_of_issue"),
         ("date_of_activation", getStrD kvs "date_of_activation"),
         ("extracted_at", Json.str now)] := by
  simp only [passbookFromJson, Option.some.injEq] at h
  exact h.symm

theorem gstFromJson_inv {kvs : List (String × Json)} {now : String}
    {r : Record} (h : gstFromJson (Json.obj kvs) now = some r) :
    ∃ fa, gstAddress kvs = some fa ∧
      r = [("document_type", Json.str "gst_certificate"),
           ("registration_number", getStrD kvs "registration_number"),
           ("legal_name", getStrD kvs "legal_name"),
           ("trade_name", getStrD kvs "trade_name"),
           ("constitution", getStrD kvs "constitution"),
           ("floor_number", getStrD kvs "floor_number"),
           ("building_number", getStrD kvs "building_number"),
           ("premises_name", getStrD kvs "premises_name"),
           ("road_street", getStrD kvs "road_street"),
           ("locality", getStrD kvs "locality"),
           ("full_address", Json.str fa),
           ("city", getStrD kvs "city"),
           ("district", getStrD kvs "district"),
           ("state", getStrD kvs "state"),
           ("pin_code", getStrD kvs "pin_code"),
           ("validity_from", getStrD kvs "validity_from"),
           ("validity_to", getStrD kvs "validity_to"),
           ("registration_type", getStrD kvs "registration_type"),
           ("approving_officer", getStrD kvs "approving_officer"),
           ("designation", getStrD kvs "designation"),
           ("office", getStrD kvs "office"),
           ("issue_date", getStrD kvs "issue_date"),
           ("extracted_at", Json.str now)] := by
  simp only [gstFromJson] at h
  rcases hm : gstAddress kvs with _ | fa
  · rw [hm] at h
    exact absurd h (by simp)
  · rw [hm] at h
    simp only [Option.some.injEq] at h
    exact ⟨fa, rfl, h.symm⟩

/-- C3 counterexample: an upstream object that supplies `null` for
`bank_name` is accepted by the cheque normalizer and the produced record
holds `null` (Python `None`) for that field — not a string. -/
theorem c3_counterexample :
    Option.map (fun r => jGet r "bank_name")
        (chequeFromJson (Json.obj [("bank_name", Json.null)]) "T")
      = some (some Json.null) ∧ jIsStr Json.null = false :=
  ⟨rfl, rfl⟩

/-- C3 amended: in each of the three normalizers, every expected upstream
field key is present in the produced record; a key absent from the
upstream JSON maps to the empty string (never omitted, never null), and a
key present upstream is passed through with its upstream value (which is
how a non-string such as `null` can end up in a record). -/
theorem c3_defaulting_amended :
    (∀ (kvs : List (String × Json)) (now : String) (r : Record),
        chequeFromJson (Json.obj kvs) now = some r →
        ∀ k ∈ chequeKeys,
          (jGet kvs k = none → jGet r k = some (Json.str "")) ∧
          (∀ v, jGet kvs k = some v → jGet r k = some v)) ∧
    (∀ (kvs : List (String × Json)) (now : String) (r : Record),
        passbookFromJson (Json.obj kvs) now = some r →
        ∀ k ∈ passbookKeys,
          (jGet kvs k = none → jGet r k = some (Json.str "")) ∧
          (∀ v, jGet kvs k = some v → jGet r k = some v)) ∧
    (∀ (kvs : List (String × Json)) (now : String) (r : Record),
        gstFromJson (Json.obj kvs) now = some r →
        ∀ k ∈ gstKeys,
          (jGet kvs k = none → jGet r k = some (Json.str "")) ∧
          (∀ v, jGet kvs k = some v → jGet r k = some v)) := by
  refine ⟨?_, ?_, ?_⟩
  · intro kvs now r h k hk
    obtain ⟨cn, hm, hr⟩ := chequeFromJson_inv h
    subst hr
    simp only [chequeKeys, List.mem_cons, List.not_mem_nil, or_false] at hk
    rcases hk with rfl | rfl | rfl | rfl | rfl | rfl | rfl | rfl | rfl | rfl
      | rfl | rfl <;>
      exact ⟨fun hnone => by simp [jGet, getStrD, hnone],
        fun v hv => by simp [jGet, getStrD, hv]⟩
  · intro kvs now r h k hk
    have hr := passbookFromJson_inv h
    subst hr
    simp only [passbookKeys, List.mem_cons, List.not_mem_nil, or_false] at hk
    rcases hk with rfl | rfl | rfl | rfl | rfl | rfl | rfl | rfl | rfl | rfl
      | rfl | rfl | rfl | rfl | rfl | rfl | rfl <;>
      exact ⟨fun hnone => by simp [jGet, getStrD, hnone],
        fun v hv => by simp [jGet, getStrD, hv]⟩
  · intro kvs now r h k hk
    obtain ⟨fa, hm, hr⟩ := gstFromJson_inv h
    subst hr
    simp only [gstKeys, List.mem_cons, List.not_mem_nil, or_false] at hk
    rcases hk with rfl | rfl | rfl | rfl | rfl | rfl | rfl | rfl | rfl | rfl
      | rfl | rfl | rfl | rfl | rfl | rfl | rfl | rfl | rfl | rfl <;>
      exact ⟨fun hnone => by simp [jGet, getStrD, hnone],
        fun v hv => by simp [jGet, getStrD, hv]⟩

/-- Witness for C3 (amended): applied to a concrete upstream object with
one key present and the others absent. -/
theorem c3_defaulting_amended_witness :
    jGet [("document_type", Json.str "cheque"), ("bank_name", Json.str "SBI"),
          ("account_holder_name", Json.str ""), ("payee_name", Json.str ""),
          ("amount_words", Json.str ""), ("amount_numbers", Json.str ""),
          ("amount_formatted", Json.str ""), ("date", Json.str ""),
          ("account_number", Json.str ""), ("ifsc_code", Json.str ""),
          ("micr_code", Json.str ""), ("cheque_number", Json.str ""),
          ("prefix_number", Json.str ""), ("branch_name", Json.str ""),
          ("branch_code", Json.str ""), ("extracted_at", Json.str "T")]
        "payee_name" = some (Json.str "") ∧
    jGet [("document_type", Json.str "cheque"), ("bank_name", Json.str "SBI"),
          ("account_holder_name", Json.str ""), ("payee_name", Json.str ""),
          ("amount_words", Json.str ""), ("amount_numbers", Json.str ""),
          ("amount_formatted", Json.str ""), ("date", Json.str ""),
          ("account_number", Json.str ""), ("ifsc_code", Json.str ""),
          ("micr_code", Json.str ""), ("cheque_number", Json.str ""),
          ("prefix_number", Json.str ""), ("branch_name", Json.str ""),
          ("branch_code", Json.str ""), ("extracted_at", Json.str "T")]
        "bank_name" = some (Json.str "SBI") := by
  have h : chequeFromJson (Json.obj [("bank_name", Json.str "SBI")]) "T" =
      some [("document_type", Json.str "cheque"), ("bank_name", Json.str "SBI"),
            ("account_holder_name", Json.str ""), ("payee_name", Json.str ""),
            ("amount_words", Json.str ""), ("amount_numbers", Json.str ""),
            ("amount_formatted", Json.str ""), ("date", Json.str ""),
            ("account_number", Json.str ""), ("ifsc_code", Json.str ""),
            ("micr_code", Json.str ""), ("cheque_number", Json.str ""),
            ("prefix_number", Json.str ""), ("branch_name", Json.str ""),
            ("branch_code", Json.str ""), ("extracted_at", Json.str "T")] := rfl
  exact ⟨(c3_defaulting_amended.1 _ "T" _ h "payee_name" (by decide)).1 rfl,
    (c3_defaulting_amended.1 _ "T" _ h "bank_name" (by decide)).2
      (Json.str "SBI") rfl⟩

theorem jGet_append_single_ne (kvs : List (String × Json)) (k k' : String)
    (v : Json) (h : ¬k = k') : jGet (kvs ++ [(k, v)]) k' = jGet kvs k' := by
  induction kvs with
  | nil => simp [jGet, h]
  | cons p rest ih =>
      rcases p with ⟨k2, v2⟩
      simp [jGet, ih]

/-- C4: the derived fields are recomputed from the raw fields
(`cheque_number` from `micr_code` via the MICR parser, `amount_formatted`
from `amount_numbers` via the currency formatter, `full_address` from the
address sub-fields), and an upstream binding for a derived-field key is
ignored: appending such a binding to the upstream object (which, by
last-binding-wins lookup, makes it the object's value for that key) does
not change the normalizer's output. -/
theorem c4_derived_recomputed :
    (∀ (kvs : List (String × Json)) (v : Json) (now : String),
        chequeFromJson (Json.obj (kvs ++ [("cheque_number", v)])) now
          = chequeFromJson (Json.obj kvs) now ∧
        chequeFromJson (Json.obj (kvs ++ [("amount_formatted", v)])) now
          = chequeFromJson (Json.obj kvs) now ∧
        chequeFromJson (Json.obj (kvs ++ [("full_address", v)])) now
          = chequeFromJson (Json.obj kvs) now ∧
        gstFromJson (Json.obj (kvs ++ [("full_address", v)])) now
          = gstFromJson (Json.obj kvs) now ∧
        gstFromJson (Json.obj (kvs ++ [("cheque_number", v)])) now
          = gstFromJson (Json.obj kvs) now ∧
        gstFromJson (Json.obj (kvs ++ [("amount_formatted", v)])) now
          = gstFromJson (Json.obj kvs) now) ∧
    (∀ (kvs : List (String × Json)) (now : String) (r : Record),
        chequeFromJson (Json.obj kvs) now = some r →
        jGet r "cheque_number"
            = Option.map Json.str (micrExtract (getStrD kvs "micr_code")) ∧
        jGet r "amount_formatted"
            = some (Json.str (formatAmount (getStrD kvs "amount_numbers")))) ∧
    (∀ (kvs : List (String × Json)) (now : String) (r : Record) (fa : String),
        gstFromJson (Json.obj kvs) now = some r →
        gstAddress kvs = some fa →
        jGet r "full_address" = some (Json.str fa)) := by
  refine ⟨?_, ?_, ?_⟩
  · intro kvs v now
    refine ⟨?_, ?_, ?_, ?_, ?_, ?_⟩ <;>
      simp [chequeFromJson, gstFromJson, gstAddress, gstParts, labChunk,
        rawChunk, getStrD, jGet_append_single_ne]
  · intro kvs now r h
    obtain ⟨cn, hm, hr⟩ := chequeFromJson_inv h
    subst hr
    constructor
    · rw [hm]
      simp [jGet]
    · simp [jGet]
  · intro kvs now r fa h hfa
    obtain ⟨fa', hm, hr⟩ := gstFromJson_inv h
    subst hr
    rw [hm, Option.some_inj] at hfa
    subst hfa
    simp [jGet]

/-- Witness for C4: the second clause applied to a concrete upstream
object that also supplies a bogus `cheque_number`. -/
theorem c4_derived_recomputed_witness :
    Option.map (fun r => jGet r "cheque_number")
        (chequeFromJson
          (Json.obj [("micr_code", Json.str "⑈55⑈"),
                     ("cheque_number", Json.str "999999")]) "T")
      = some (some (Json.str "55")) := by
  have h : chequeFromJson
      (Json.obj [("micr_code", Json.str "⑈55⑈"),
                 ("cheque_number", Json.str "999999")]) "T" =
      some [("document_type", Json.str "cheque"), ("bank_name", Json.str ""),
            ("account_holder_name", Json.str ""), ("payee_name", Json.str ""),
            ("amount_words", Json.str ""), ("amount_numbers", Json.str ""),
            ("amount_formatted", Json.str ""), ("date", Json.str ""),
            ("account_number", Json.str ""), ("ifsc_code", Json.str ""),
            ("micr_code", Json.str "⑈55⑈"), ("cheque_number", Json.str "55"),
            ("prefix_number", Json.str ""), ("branch_name", Json.str ""),
            ("branch_code", Json.str ""), ("extracted_at", Json.str "T")] := rfl
  have h2 := (c4_derived_recomputed.2.1 _ "T" _ h).1
  rw [h]
  simpa using h2

theorem pyTruthy_str_label (lab x : String) (h : lab.length ≠ 0) :
    pyTruthy (Json.str (lab ++ x)) = true := by
  simp only [pyTruthy, bne_iff_ne, ne_eq]
  intro he
  have hlen := congrArg String.length he
  simp [String.length_append] at hlen
  exact h hlen.1

theorem filter_labChunk (lab : String) (o : Option Json) (h : lab.length ≠ 0) :
    (labChunk lab o).filter pyTruthy = labChunk lab o := by
  rw [labChunk]
  by_cases ht : optTruthy o = true
  · rw [if_pos ht]
    simp [List.filter, pyTruthy_str_label lab _ h]
  · rw [if_neg ht]
    rfl

theorem filter_rawChunk (o : Option Json) :
    (rawChunk o).filter pyTruthy = rawChunk o := by
  rw [rawChunk]
  by_cases ht : optTruthy o = true
  · rw [if_pos ht]
    rcases o with _ | v
    · simp [optTruthy] at ht
    · simp only [optTruthy] at ht
      simp [List.filter, ht]
  · rw [if_neg ht]
    rfl

theorem map_labChunk (lab : String) (o : Option Json) :
    (labChunk lab o).map jStrVal =
      if optTruthy o = true then [lab ++ pyStr (o.getD Json.null)] else [] := by
  rw [labChunk]
  by_cases ht : optTruthy o = true
  · rw [if_pos ht, if_pos ht]
    rfl
  · rw [if_neg ht, if_neg ht]
    rfl

theorem map_rawChunk (o : Option Json) (h : (rawChunk o).all jIsStr = true) :
    (rawChunk o).map jStrVal =
      if optTruthy o = true then [pyStr (o.getD Json.null)] else [] := by
  rw [rawChunk] at h
  rw [rawChunk]
  by_cases ht : optTruthy o = true
  · rw [if_pos ht] at h
    rw [if_pos ht, if_pos ht]
    rcases o with _ | v
    · simp [optTruthy] at ht
    · rcases v with _ | b | n | s | xs | kvs2 <;> simp_all [jIsStr, jStrVal, pyStr]
  · rw [if_neg ht, if_neg ht]
    rfl

/-- When the GST address join succeeds, its value is the amended
description. -/
theorem gstAddress_eq_amended {kvs : List (String × Json)} {fa : String}
    (h : gstAddress kvs = some fa) : fa = amendedGstAddress kvs := by
  rw [gstAddress] at h
  by_cases hall : ((gstParts kvs).filter pyTruthy).all jIsStr = true
  · rw [if_pos hall, Option.some_inj] at h
    subst h
    have hfilter : (gstParts kvs).filter pyTruthy = gstParts kvs := by
      rw [gstParts]
      simp only [List.filter_append]
      rw [filter_labChunk _ _ (by decide), filter_labChunk _ _ (by decide),
        filter_rawChunk, filter_rawChunk, filter_rawChunk]
    rw [hfilter] at hall ⊢
    rw [gstParts] at hall ⊢
    simp only [List.all_append, Bool.and_eq_true] at hall
    obtain ⟨⟨⟨⟨h1, h2⟩, h3⟩, h4⟩, h5⟩ := hall
    rw [amendedGstAddress]
    simp only [List.map_append]
    rw [map_labChunk, map_labChunk, map_rawChunk _ h3, map_rawChunk _ h4,
      map_rawChunk _ h5]
    simp [List.append_assoc]
  · rw [if_neg hall] at h
    exact absurd h (by simp)

/-- C5 counterexample: with `floor_number = "3"` the code's `full_address`
is `Floor: 3`, while the claim's join-of-values yields `3`. -/
theorem c5_counterexample :
    Option.map (fun r => jGet r "full_address")
        (gstFromJson (Json.obj [("floor_number", Json.str "3")]) "T")
      = some (some (Json.str "Floor: 3")) ∧
    claimGstAddress [("floor_number", Json.str "3")] = "3" ∧
    ("Floor: 3" : String) ≠ "3" :=
  ⟨rfl, rfl, by decide⟩

/-- C5 amended: whenever the GST normalizer produces a record, its
`full_address` is the comma-and-space join of the truthy address
sub-fields in order floor, building, premises name, road/street,
locality — with the floor and building contributions carrying `Floor: `
and `Building: ` labels and non-string sub-field values rendered by
Python `str()`. -/
theorem c5_gst_address_amended :
    ∀ (kvs : List (String × Json)) (now : String) (r : Record),
      gstFromJson (Json.obj kvs) now = some r →
      jGet r "full_address" = some (Json.str (amendedGstAddress kvs)) := by
  intro kvs now r h
  obtain ⟨fa, hm, hr⟩ := gstFromJson_inv h
  subst hr
  rw [← gstAddress_eq_amended hm]
  simp [jGet]

/-- Witness for C5 (amended) at a concrete upstream object. -/
theorem c5_gst_address_amended_witness :
    Option.map (fun r => jGet r "full_address")
        (gstFromJson (Json.obj [("floor_number", Json.str "3"),
                                ("road_street", Json.str "MG Road")]) "T")
      = some (some (Json.str "Floor: 3, MG Road")) := by
  obtain ⟨r, hr⟩ : ∃ r, gstFromJson
      (Json.obj [("floor_number", Json.str "3"),
                 ("road_street", Json.str "MG Road")]) "T" = some r := ⟨_, rfl⟩
  rw [hr]
  have h2 := c5_gst_address_amended _ "T" r hr
  simp only [Option.map_some']
  rw [h2]
  rfl

/-! ### C6: fence unwrapping -/

theorem stripFront_append (l m : List Char) :
    stripFront (l ++ m) =
      if stripFront l = [] then stripFront m else stripFront l ++ m := by
  induction l with
  | nil => simp [stripFront]
  | cons c l' ih =>
      by_cases h : isPyWs c = true
      · simp only [List.cons_append, stripFront, List.dropWhile_cons, h,
          if_true] at ih ⊢
        exact ih
      · simp only [Bool.not_eq_true] at h
        simp [stripFront, List.dropWhile_cons, h]

theorem stripEnd_snoc_ws {c : Char} (l : List Char) (h : isPyWs c = true) :
    stripEnd (l ++ [c]) = stripEnd l := by
  simp [stripEnd, List.reverse_append, List.dropWhile_cons, h]

theorem stripEnd_snoc_nonws {c : Char} (l : List Char) (h : isPyWs c = false) :
    stripEnd (l ++ [c]) = l ++ [c] := by
  simp [stripEnd, List.reverse_append, List.dropWhile_cons, h]

theorem stripFront_cons_nonws {c : Char} (l : List Char) (h : isPyWs c = false) :
    stripFront (c :: l) = c :: l := by
  simp [stripFront, List.dropWhile_cons, h]

/-- Stripping eats exactly the guard newlines added around the payload. -/
theorem pyStrip_guard (l : List Char) :
    pyStripL ('\n' :: (l ++ ['\n'])) = pyStripL l := by
  rw [pyStripL, pyStripL]
  have h1 : stripFront ('\n' :: (l ++ ['\n'])) = stripFront (l ++ ['\n']) := by
    simp [stripFront, List.dropWhile_cons, (by decide : isPyWs '\n' = true)]
  rw [h1, stripFront_append]
  by_cases h : stripFront l = []
  · rw [if_pos h, h]
    rfl
  · rw [if_neg h, stripEnd_snoc_ws _ (by decide)]

theorem afterSub_prefix (pat rest : List Char) (hpat : pat ≠ []) :
    afterSub pat (pat ++ rest) = rest := by
  rcases pat with _ | ⟨p, pat'⟩
  · exact absurd rfl hpat
  · rw [List.cons_append, afterSub,
      if_pos (List.isPrefixOf_iff_prefix.mpr
        (List.cons_append p pat' rest ▸ List.prefix_append (p :: pat') rest)),
      ← List.cons_append, List.drop_left]

theorem tickTriple_tail {c : Char} {v : List Char}
    (h : hasTripleTick (c :: v) = false) : hasTripleTick v = false := by
  rcases v with _ | ⟨d, _ | ⟨e, rest⟩⟩
  · rfl
  · rfl
  · simp only [hasTripleTick, Bool.or_eq_false_iff] at h
    exact h.2

theorem hasTriple_newline_cons (v : List Char) :
    hasTripleTick ('\n' :: v) = hasTripleTick v := by
  rcases v with _ | ⟨d, _ | ⟨e, rest⟩⟩ <;> simp [hasTripleTick]

theorem hasTriple_cons (a : Char) {v : List Char}
    (h : hasTripleTick v = true) : hasTripleTick (a :: v) = true := by
  rcases v with _ | ⟨b, _ | ⟨c, rest⟩⟩
  · simp [hasTripleTick] at h
  · simp [hasTripleTick] at h
  · simp only [hasTripleTick, Bool.or_eq_true] at h ⊢
    exact Or.inr h

theorem hasTriple_append_right (s : List Char) {t : List Char}
    (h : hasTripleTick t = true) : hasTripleTick (s ++ t) = true := by
  induction s with
  | nil => simpa using h
  | cons a s' ih => exact hasTriple_cons a ih

theorem hasTriple_append_left :
    ∀ (n : Nat) (t r : List Char), t.length = n → hasTripleTick t = true →
      hasTripleTick (t ++ r) = true := by
  intro n
  induction n using Nat.strong_induction_on with
  | _ n ih =>
      intro t r hn h
      rcases t with _ | ⟨a, _ | ⟨b, _ | ⟨c, rest⟩⟩⟩
      · simp [hasTripleTick] at h
      · simp [hasTripleTick] at h
      · simp [hasTripleTick] at h
      · simp only [hasTripleTick, Bool.or_eq_true] at h
        rcases h with h | h
        · simp only [List.cons_append, hasTripleTick, Bool.or_eq_true]
          exact Or.inl h
        · have hn' : n = rest.length + 3 := by
            simp [List.length_cons] at hn
            omega
          have := ih (n - 1) (by omega) (b :: c :: rest) r
            (by simp [List.length_cons]; omega) h
          simp only [List.cons_append, hasTripleTick, Bool.or_eq_true]
          exact Or.inr (by simpa using this)

theorem stripFront_suffix (l : List Char) : stripFront l <:+ l :=
  List.dropWhile_suffix isPyWs

theorem stripEnd_prefix (l : List Char) : stripEnd l <+: l := by
  have h : l.reverse.dropWhile isPyWs <:+ l.reverse := List.dropWhile_suffix isPyWs
  have h2 : (l.reverse.dropWhile isPyWs).reverse <+: l.reverse.reverse :=
    List.reverse_prefix.mpr (by simpa using h)
  simpa using h2

theorem hasTriple_strip {pl : List Char} (h : hasTripleTick pl = false) :
    hasTripleTick (pyStripL pl) = false := by
  cases htr : hasTripleTick (pyStripL pl) with
  | false => rfl
  | true =>
      exfalso
      obtain ⟨u, hu⟩ := stripEnd_prefix (stripFront pl)
      obtain ⟨s, hs⟩ := stripFront_suffix pl
      have h1 : hasTripleTick (stripFront pl) = true := by
        rw [← hu]
        exact hasTriple_append_left (pyStripL pl).length _ u rfl htr
      have h2 : hasTripleTick pl = true := by
        rw [← hs]
        exact hasTriple_append_right s h1
      rw [h2] at h
      exact Bool.noConfusion h

theorem tks_isPrefixOf_hasTriple {s : List Char}
    (h : tksL.isPrefixOf s = true) : hasTripleTick s = true := by
  obtain ⟨t, ht⟩ := List.isPrefixOf_iff_prefix.mp h
  rw [← ht]
  simp [tksL, hasTripleTick]

theorem jsTag_isPrefixOf_tks {s : List Char}
    (h : jsTagL.isPrefixOf s = true) : tksL.isPrefixOf s = true := by
  refine List.isPrefixOf_iff_prefix.mpr ?_
  exact List.IsPrefix.trans ⟨['j', 's', 'o', 'n'], rfl⟩
    (List.isPrefixOf_iff_prefix.mp h)

/-- The nontrivial scan facts: cutting at the first fence inside the
guarded payload removes exactly the closing guard-and-fence, provided the
payload itself has no triple backtick. -/
theorem takeUntil_tks_guard :
    ∀ (v : List Char), hasTripleTick v = false →
      takeUntilSub tksL (v ++ ('\n' :: tksL)) = v ++ ['\n'] := by
  intro v
  induction v with
  | nil =>
      intro _
      decide
  | cons c v' ih =>
      intro h
      rw [List.cons_append, takeUntilSub]
      have hpre : tksL.isPrefixOf (c :: (v' ++ ('\n' :: tksL))) = false := by
        rcases v' with _ | ⟨d, _ | ⟨e, rest⟩⟩
        · simp [tksL, List.isPrefixOf]
        · simp [tksL, List.isPrefixOf]
        · cases hp : tksL.isPrefixOf (c :: ((d :: e :: rest) ++ ('\n' :: tksL))) with
          | false => rfl
          | true =>
              exfalso
              simp only [tksL, List.cons_append, List.isPrefixOf,
                Bool.and_eq_true, beq_iff_eq] at hp
              obtain ⟨h1, h2, h3, -⟩ := hp
              rw [← h1, ← h2, ← h3] at h
              simp [hasTripleTick] at h
      rw [hpre]
      simp only [if_false, Bool.false_eq_true]
      rw [ih (tickTriple_tail h), List.cons_append]

theorem takeUntil_jsTag_guard :
    ∀ (v : List Char), hasTripleTick v = false →
      takeUntilSub jsTagL (v ++ ('\n' :: tksL)) = v ++ ('\n' :: tksL) := by
  intro v
  induction v with
  | nil =>
      intro _
      decide
  | cons c v' ih =>
      intro h
      rw [List.cons_append, takeUntilSub]
      have hpre : jsTagL.isPrefixOf (c :: (v' ++ ('\n' :: tksL))) = false := by
        rcases v' with _ | ⟨d, _ | ⟨e, _ | ⟨f, rest⟩⟩⟩
        · simp [jsTagL, tksL, List.isPrefixOf]
        · simp [jsTagL, tksL, List.isPrefixOf]
        · simp [jsTagL, tksL, List.isPrefixOf]
        · cases hp : jsTagL.isPrefixOf
              (c :: ((d :: e :: f :: rest) ++ ('\n' :: tksL))) with
          | false => rfl
          | true =>
              exfalso
              simp only [jsTagL, List.cons_append, List.isPrefixOf,
                Bool.and_eq_true, beq_iff_eq] at hp
              obtain ⟨h1, h2, h3, -⟩ := hp
              rw [← h1, ← h2, ← h3] at h
              simp [hasTripleTick] at h
      rw [hpre]
      simp only [if_false, Bool.false_eq_true]
      rw [ih (tickTriple_tail h)]

theorem unwrap_tag (pl : List Char) (h : hasTripleTick pl = false) :
    unwrapFenceL (jsTagL ++ ('\n' :: (pl ++ ('\n' :: tksL)))) = pyStripL pl := by
  have hsplit : jsTagL ++ ('\n' :: (pl ++ ('\n' :: tksL)))
      = (jsTagL ++ ('\n' :: (pl ++ ['\n', '`', '`']))) ++ ['`'] := by
    simp [tksL, jsTagL, List.append_assoc]
  have hstrip : pyStripL (jsTagL ++ ('\n' :: (pl ++ ('\n' :: tksL))))
      = jsTagL ++ ('\n' :: (pl ++ ('\n' :: tksL))) := by
    rw [pyStripL]
    have hf : stripFront (jsTagL ++ ('\n' :: (pl ++ ('\n' :: tksL))))
        = jsTagL ++ ('\n' :: (pl ++ ('\n' :: tksL))) :=
      stripFront_cons_nonws _ (by decide)
    rw [hf, hsplit, stripEnd_snoc_nonws _ (by decide), ← hsplit]
  simp only [unwrapFenceL, hstrip]
  rw [if_pos (List.isPrefixOf_iff_prefix.mpr (List.prefix_append _ _)),
    betweenSub, afterSub_prefix _ _ (by decide)]
  have hjs := takeUntil_jsTag_guard ('\n' :: pl) ((hasTriple_newline_cons pl).trans h)
  rw [List.cons_append] at hjs
  rw [hjs]
  have htk := takeUntil_tks_guard ('\n' :: pl) ((hasTriple_newline_cons pl).trans h)
  rw [List.cons_append, List.cons_append] at htk
  rw [htk, pyStrip_guard]

theorem unwrap_untagged (pl : List Char) (h : hasTripleTick pl = false) :
    unwrapFenceL (tksL ++ ('\n' :: (pl ++ ('\n' :: tksL)))) = pyStripL pl := by
  have hsplit : tksL ++ ('\n' :: (pl ++ ('\n' :: tksL)))
      = (tksL ++ ('\n' :: (pl ++ ['\n', '`', '`']))) ++ ['`'] := by
    simp [tksL, List.append_assoc]
  have hstrip : pyStripL (tksL ++ ('\n' :: (pl ++ ('\n' :: tksL))))
      = tksL ++ ('\n' :: (pl ++ ('\n' :: tksL))) := by
    rw [pyStripL]
    have hf : stripFront (tksL ++ ('\n' :: (pl ++ ('\n' :: tksL))))
        = tksL ++ ('\n' :: (pl ++ ('\n' :: tksL))) :=
      stripFront_cons_nonws _ (by decide)
    rw [hf, hsplit, stripEnd_snoc_nonws _ (by decide), ← hsplit]
  simp only [unwrapFenceL, hstrip]
  have hjfalse : jsTagL.isPrefixOf (tksL ++ ('\n' :: (pl ++ ('\n' :: tksL)))) = false := by
    simp [jsTagL, tksL, List.isPrefixOf]
  rw [hjfalse]
  simp only [Bool.false_eq_true, if_false]
  rw [if_pos (List.isPrefixOf_iff_prefix.mpr (List.prefix_append _ _)),
    afterSub_prefix _ _ (by decide)]
  have htk := takeUntil_tks_guard ('\n' :: pl) ((hasTriple_newline_cons pl).trans h)
  rw [List.cons_append, List.cons_append] at htk
  rw [htk, pyStrip_guard]

theorem unwrap_bare (pl : List Char) (h : hasTripleTick pl = false) :
    unwrapFenceL pl = pyStripL pl := by
  have hstr := hasTriple_strip h
  have h2 : tksL.isPrefixOf (pyStripL pl) = false := by
    cases hp : tksL.isPrefixOf (pyStripL pl) with
    | false => rfl
    | true =>
        rw [tks_isPrefixOf_hasTriple hp] at hstr
        exact Bool.noConfusion hstr
  have h1 : jsTagL.isPrefixOf (pyStripL pl) = false := by
    cases hp : jsTagL.isPrefixOf (pyStripL pl) with
    | false => rfl
    | true =>
        rw [jsTag_isPrefixOf_tks hp] at h2
        exact Bool.noConfusion h2
  simp only [unwrapFenceL, h1, h2, Bool.false_eq_true, if_false]

/-- C6 counterexample: a valid JSON payload that contains three
consecutive backticks inside a string value parses when sent bare, but
the fenced version is truncated at the inner backticks and fails to
parse — the two responses do not yield the same record. -/
theorem c6_counterexample :
    chequeNormFromText "```json\n\x7b\"micr_code\": \"x```y\"\x7d\n```" "T" = none ∧
    (chequeNormFromText "\x7b\"micr_code\": \"x```y\"\x7d" "T").isSome = true :=
  ⟨rfl, rfl⟩

/-- C6 amended: for every payload that does not contain three consecutive
backticks, the unwrap step produces the stripped payload whether the text
is bare, wrapped in a fenced block with the `json` language tag, or
wrapped with the tag omitted — hence the normalizer parses all three to
the same record. -/
theorem c6_fence_unwrap_amended :
    ∀ p : String, hasTripleTick p.data = false →
      unwrapFence ("```json\n" ++ p ++ "\n```") = pyStripS p ∧
      unwrapFence ("```\n" ++ p ++ "\n```") = pyStripS p ∧
      unwrapFence p = pyStripS p ∧
      ∀ now : String,
        chequeNormFromText ("```json\n" ++ p ++ "\n```") now
          = chequeNormFromText p now ∧
        chequeNormFromText ("```\n" ++ p ++ "\n```") now
          = chequeNormFromText p now := by
  intro p h
  have hd1 : ("```json\n" ++ p ++ "\n```").data
      = jsTagL ++ ('\n' :: (p.data ++ ('\n' :: tksL))) := rfl
  have hd2 : ("```\n" ++ p ++ "\n```").data
      = tksL ++ ('\n' :: (p.data ++ ('\n' :: tksL))) := rfl
  have h1 : unwrapFence ("```json\n" ++ p ++ "\n```") = pyStripS p := by
    rw [unwrapFence, hd1, unwrap_tag p.data h]
    rfl
  have h2 : unwrapFence ("```\n" ++ p ++ "\n```") = pyStripS p := by
    rw [unwrapFence, hd2, unwrap_untagged p.data h]
    rfl
  have h3 : unwrapFence p = pyStripS p := by
    rw [unwrapFence, unwrap_bare p.data h]
    rfl
  refine ⟨h1, h2, h3, fun now => ⟨?_, ?_⟩⟩
  · simp only [chequeNormFromText]
    rw [h1, h3]
  · simp only [chequeNormFromText]
    rw [h2, h3]

/-- Witness for C6 (amended) at a concrete payload. -/
theorem c6_fence_unwrap_amended_witness :
    unwrapFence "```json\n\x7b\x7d\n```" = pyStripS "\x7b\x7d" :=
  (c6_fence_unwrap_amended "\x7b\x7d" (by decide)).1

/-! ### C7, C8, C9, C10: the request handlers -/

/-- C7 counterexample: a PDF upload whose rasterization raises leaves the
saved original on disk while the handler responds 500 — cleanup is not
guaranteed on this failure path. -/
theorem c7_counterexample :
    (process_doc
        ⟨"Please upload a cheque image or PDF",
         "Cheque data extracted successfully",
         "Failed to extract cheque data. Please ensure the image is clear and readable."⟩
        ({ hasFile := true, filename := "a.pdf", content := [],
           now := "20250101_000000", saveErr := none,
           convertErr := some "cannot rasterize first page", numPages := 1,
           pageSaveErr := none, extractErr := none, extractData := some 0,
           removeTempErr := none, removeOrigErr := none } : HandlerEnv Nat)).2.origSaved
      = true ∧
    (process_doc
        ⟨"Please upload a cheque image or PDF",
         "Cheque data extracted successfully",
         "Failed to extract cheque data. Please ensure the image is clear and readable."⟩
        ({ hasFile := true, filename := "a.pdf", content := [],
           now := "20250101_000000", saveErr := none,
           convertErr := some "cannot rasterize first page", numPages := 1,
           pageSaveErr := none, extractErr := none, extractData := some 0,
           removeTempErr := none, removeOrigErr := none } : HandlerEnv Nat)).2.origRemains
      = true ∧
    (process_doc
        ⟨"Please upload a cheque image or PDF",
         "Cheque data extracted successfully",
         "Failed to extract cheque data. Please ensure the image is clear and readable."⟩
        ({ hasFile := true, filename := "a.pdf", content := [],
           now := "20250101_000000", saveErr := none,
           convertErr := some "cannot rasterize first page", numPages := 1,
           pageSaveErr := none, extractErr := none, extractData := some 0,
           removeTempErr := none, removeOrigErr := none } : HandlerEnv Nat)).1.status
      = 500 :=
  ⟨rfl, rfl, rfl⟩

/-- C7 amended: the temporary files are removed before the handler
responds on the success path and on the extraction-returned-nothing
failure path — that is, on every path on which no effect raises an
exception; a raise during rasterization, page save, image open /
extraction, or removal itself leaves files behind. -/
theorem c7_cleanup_amended :
    ∀ (α : Type) (m : DocMsgs) (e : HandlerEnv α),
      e.hasFile = true → e.filename ≠ "" → e.saveErr = none →
      e.extractErr = none → e.removeTempErr = none → e.removeOrigErr = none →
      (endsWithPdf (savedPathData e) = true →
        e.convertErr = none ∧ e.numPages ≠ 0 ∧ e.pageSaveErr = none) →
      (process_doc m e).2.origRemains = false ∧
      (process_doc m e).2.tempRemains = false := by
  intro α m e h1 h2 h3 h4 h5 h6 hpdf
  by_cases hp : endsWithPdf (savedPathData e) = true
  · obtain ⟨hc, hn, hps⟩ := hpdf hp
    simp [process_doc, h1, h2, h3, h4, h5, h6, hp, hc, hn, hps]
  · simp [process_doc, h1, h2, h3, h4, h6, hp]

/-- Witness for C7 (amended) at a concrete clean request. -/
theorem c7_cleanup_amended_witness :
    (process_doc ⟨"u", "s", "f"⟩
        ({ hasFile := true, filename := "b.pdf", content := [], now := "20250101_000000",
           saveErr := none, convertErr := none, numPages := 1,
           pageSaveErr := none, extractErr := none, extractData := none,
           removeTempErr := none, removeOrigErr := none } : HandlerEnv Nat)).2.origRemains
      = false ∧
    (process_doc ⟨"u", "s", "f"⟩
        ({ hasFile := true, filename := "b.pdf", content := [], now := "20250101_000000",
           saveErr := none, convertErr := none, numPages := 1,
           pageSaveErr := none, extractErr := none, extractData := none,
           removeTempErr := none, removeOrigErr := none } : HandlerEnv Nat)).2.tempRemains
      = false :=
  c7_cleanup_amended Nat ⟨"u", "s", "f"⟩ _ rfl (by decide) rfl rfl rfl rfl
    (fun _ => ⟨rfl, by decide, rfl⟩)

/-- C8: a request without a file part gets HTTP 400 with
`error = "No file provided"`; a request whose file has an empty filename
gets HTTP 400 with `error = "Empty filename"`; in both cases nothing is
saved and no extraction is attempted. -/
theorem c8_validation :
    ∀ (α : Type) (m : DocMsgs) (e : HandlerEnv α),
      (e.hasFile = false →
        (process_doc m e).1
            = ⟨400, false, some "No file provided", m.uploadPrompt, none⟩ ∧
        (process_doc m e).2 = emptyTrace ∧
        (process_doc m e).2.origSaved = false ∧
        (process_doc m e).2.extractCalled = false) ∧
      (e.hasFile = true → e.filename = "" →
        (process_doc m e).1
            = ⟨400, false, some "Empty filename", "No file selected", none⟩ ∧
        (process_doc m e).2 = emptyTrace ∧
        (process_doc m e).2.origSaved = false ∧
        (process_doc m e).2.extractCalled = false) := by
  intro α m e
  constructor
  · intro h1
    refine ⟨?_, ?_, ?_, ?_⟩ <;> simp [process_doc, h1, resp400, emptyTrace]
  · intro h1 h2
    refine ⟨?_, ?_, ?_, ?_⟩ <;> simp [process_doc, h1, h2, resp400, emptyTrace]

/-- Witness for C8 at a concrete request without a file part. -/
theorem c8_validation_witness :
    (process_doc ⟨"u", "s", "f"⟩
        ({ hasFile := false, filename := "x", content := [], now := "t",
           saveErr := none, convertErr := none, numPages := 0,
           pageSaveErr := none, extractErr := none, extractData := none,
           removeTempErr := none, removeOrigErr := none } : HandlerEnv Nat)).1
      = ⟨400, false, some "No file provided", "u", none⟩ :=
  ((c8_validation Nat ⟨"u", "s", "f"⟩ _).1 rfl).1

/-- Every run of a handler produces one of the four response shapes. -/
theorem process_doc_cases (α : Type) (m : DocMsgs) (e : HandlerEnv α) :
    (process_doc m e).1 = resp400 "No file provided" m.uploadPrompt ∨
    (process_doc m e).1 = resp400 "Empty filename" "No file selected" ∨
    (∃ msg, (process_doc m e).1 = respServer msg) ∨
    (process_doc m e).1 = respFinish m e.extractData := by
  unfold process_doc
  repeat' split
  all_goals
    first
    | exact Or.inl rfl
    | exact Or.inr (Or.inl rfl)
    | exact Or.inr (Or.inr (Or.inl ⟨_, rfl⟩))
    | exact Or.inr (Or.inr (Or.inr rfl))

/-- C9: the handler is a total function to a well-formed response — no
modelled exception escapes: the status is always 200, 400 or 500;
success holds exactly on 200; on success the record is returned with the
endpoint's success message; a clean run whose normalizer returns nothing
yields the fixed 500 extraction-failure envelope; and an exception
during save is caught and reported as the generic server error. -/
theorem c9_response_envelope :
    ∀ (α : Type) (m : DocMsgs) (e : HandlerEnv α),
      ((process_doc m e).1.status = 200 ∨ (process_doc m e).1.status = 400 ∨
        (process_doc m e).1.status = 500) ∧
      ((process_doc m e).1.success = true ↔ (process_doc m e).1.status = 200) ∧
      ((process_doc m e).1.success = true →
        (process_doc m e).1.data = e.extractData ∧
        (process_doc m e).1.message = m.successMsg) ∧
      (e.hasFile = true → e.filename ≠ "" → e.saveErr = none →
        e.extractErr = none → e.removeTempErr = none → e.removeOrigErr = none →
        (endsWithPdf (savedPathData e) = true →
          e.convertErr = none ∧ e.numPages ≠ 0 ∧ e.pageSaveErr = none) →
        e.extractData = none →
        (process_doc m e).1
          = ⟨500, false, some "Extraction failed", m.failMsg, none⟩) ∧
      (∀ msg, e.hasFile = true → e.filename ≠ "" → e.saveErr = some msg →
        (process_doc m e).1 = respServer msg) := by
  intro α m e
  refine ⟨?_, ?_, ?_, ?_, ?_⟩
  · rcases process_doc_cases α m e with h | h | ⟨msg, h⟩ | h <;> rw [h]
    · right; left; rfl
    · right; left; rfl
    · right; right; rfl
    · rcases hd : e.extractData with _ | d
      · right; right; rfl
      · left; rfl
  · rcases process_doc_cases α m e with h | h | ⟨msg, h⟩ | h <;> rw [h]
    · simp [resp400]
    · simp [resp400]
    · simp [respServer]
    · rcases hd : e.extractData with _ | d
      · simp [respFinish]
      · simp [respFinish]
  · rcases process_doc_cases α m e with h | h | ⟨msg, h⟩ | h <;> rw [h]
    · simp [resp400]
    · simp [resp400]
    · simp [respServer]
    · rcases hd : e.extractData with _ | d
      · simp [respFinish]
      · simp [respFinish]
  · intro h1 h2 h3 h4 h5 h6 hpdf hd
    by_cases hp : endsWithPdf (savedPathData e) = true
    · obtain ⟨hc, hn, hps⟩ := hpdf hp
      simp [process_doc, h1, h2, h3, h4, h5, h6, hp, hc, hn, hps, hd, respFinish]
    · simp [process_doc, h1, h2, h3, h4, h6, hp, hd, respFinish]
  · intro msg h1 h2 h3
    simp [process_doc, h1, h2, h3]

/-- Witness for C9: the save-exception clause applied at a concrete
request. -/
theorem c9_response_envelope_witness :
    (process_doc ⟨"u", "s", "f"⟩
        ({ hasFile := true, filename := "a.jpg", content := [], now := "t",
           saveErr := some "disk full", convertErr := none, numPages := 0,
           pageSaveErr := none, extractErr := none, extractData := none,
           removeTempErr := none, removeOrigErr := none } : HandlerEnv Nat)).1
      = respServer "disk full" :=
  (c9_response_envelope Nat ⟨"u", "s", "f"⟩ _).2.2.2.2 "disk full" rfl
    (by decide) rfl

theorem pdf_ext_of_path (x y : List Char) :
    (['f', 'd', 'p', '.'] : List Char).isPrefixOf (x ++ '_' :: y)
      = (['f', 'd', 'p', '.'] : List Char).isPrefixOf x := by
  rcases x with _ | ⟨a, _ | ⟨b, _ | ⟨c, _ | ⟨d, x'⟩⟩⟩⟩ <;>
    simp [List.isPrefixOf]

/-- The `.pdf` test on the saved path is exactly the case-insensitive
`.pdf` test on the client filename: the timestamp prefix ends with an
underscore, which cannot occur inside the `.pdf` suffix. -/
theorem endsWithPdf_savedPath {α : Type} (e : HandlerEnv α) :
    endsWithPdf (savedPathData e) = endsWithPdfName e.filename := by
  rw [endsWithPdf, endsWithPdfName, savedPathData]
  rw [List.isSuffixOf, List.isSuffixOf]
  have hrev : ((".pdf".data : List Char)).reverse = ['f', 'd', 'p', '.'] := rfl
  rw [hrev]
  have hsplit :
      (lowerData ("uploads/".data ++ e.now.data ++ '_' :: e.filename.data)).reverse
        = (lowerData e.filename.data).reverse
            ++ '_' :: ((lowerData e.now.data).reverse
              ++ (lowerData "uploads/".data).reverse) := by
    simp [lowerData, List.reverse_append, List.append_assoc,
      (show Char.toLower '_' = '_' from rfl)]
  rw [hsplit, pdf_ext_of_path]

/-- C10: the upload is treated as a PDF exactly when the saved path,
lowercased, ends in `.pdf`; that test is a pure function of the
client-supplied filename; the uploaded bytes are never inspected by the
handler; and rasterization, when it happens, is of page index 0 at
300 DPI saved as JPEG. -/
theorem c10_pdf_decision :
    (∀ (α : Type) (e : HandlerEnv α),
        endsWithPdf (savedPathData e) = endsWithPdfName e.filename) ∧
    (∀ (α : Type) (m : DocMsgs) (e : HandlerEnv α),
        e.hasFile = true → e.filename ≠ "" → e.saveErr = none →
        (process_doc m e).2.convertCalled = endsWithPdfName e.filename) ∧
    (∀ (α : Type) (m : DocMsgs) (e : HandlerEnv α) (c1 c2 : List Nat),
        process_doc m { e with content := c1 }
          = process_doc m { e with content := c2 }) ∧
    (∀ (α : Type) (m : DocMsgs) (e : HandlerEnv α),
        ((process_doc m e).2.convertDpi = none ∨
          (process_doc m e).2.convertDpi = some 300) ∧
        ((process_doc m e).2.pageIndexUsed = none ∨
          (process_doc m e).2.pageIndexUsed = some 0) ∧
        ((process_doc m e).2.pageFormat = none ∨
          (process_doc m e).2.pageFormat = some "JPEG")) ∧
    (∀ (α : Type) (m : DocMsgs) (e : HandlerEnv α),
        (process_doc m e).2.convertCalled = false →
        (process_doc m e).2.convertDpi = none ∧
        (process_doc m e).2.tempSaved = false) := by
  refine ⟨fun α e => endsWithPdf_savedPath e, ?_, ?_, ?_, ?_⟩
  · intro α m e h1 h2 h3
    rw [← endsWithPdf_savedPath]
    by_cases hp : endsWithPdf (savedPathData e) = true
    · rw [hp]
      simp only [process_doc, h1, h3, hp]
      rw [if_neg (by simp), if_neg h2]
      repeat' split
      all_goals simp_all
    · have hp' : endsWithPdf (savedPathData e) = false := by simpa using hp
      rw [hp']
      simp only [process_doc, h1, h3, hp']
      rw [if_neg (by simp), if_neg h2]
      simp only [Bool.false_eq_true, if_false]
      repeat' split
      all_goals simp_all
  · intro α m e c1 c2
    rfl
  · intro α m e
    unfold process_doc
    repeat' split
    all_goals simp [emptyTrace]
  · intro α m e
    unfold process_doc
    repeat' split
    all_goals simp [emptyTrace]

/-- Witness for C10: the decision clause at a concrete uppercase-PDF
filename. -/
theorem c10_pdf_decision_witness :
    (process_doc ⟨"u", "s", "f"⟩
        ({ hasFile := true, filename := "Scan.PDF", content := [], now := "t",
           saveErr := none, convertErr := some "boom", numPages := 1,
           pageSaveErr := none, extractErr := none, extractData := none,
           removeTempErr := none, removeOrigErr := none } : HandlerEnv Nat)).2.convertCalled
      = endsWithPdfName "Scan.PDF" :=
  c10_pdf_decision.2.1 Nat ⟨"u", "s", "f"⟩ _ rfl (by decide) rfl

end DocExtractor
